import Mathlib

/-!
# FlatImage boot loader

A shallow embedding of the self-extracting boot loader (`src/boot/boot.cpp`), of the
environment helpers (`src/cpp/lib/env.hpp`) and of the permission bits stored in the
reserved region of the image (`src/cpp/lib/reserved/permissions.hpp`).

Conventions.

* A byte is a `Fin 256`, a file content is a `List Byte`, a path is a `String`.
* `uint64_t` values are natural numbers; every place where the C++ arithmetic can
  wrap is reduced modulo `2 ^ 64` explicitly.
* A C++ exception raised by `ethrow_if` is an `Except.error` carrying the message.
  The file system reached so far is returned next to the result, also on an error,
  because a throw does not roll back what was already written.
* Whether an output file can be opened or written is not decided by the program; the
  file system carries two oracles, `can_open` and `can_write`, for the answers of the
  operating system, and the size `write_through` from which `std::ofstream::write` hands
  the bytes to the operating system at once instead of keeping them in its buffer.
* Memory is taken to suffice: `std::bad_alloc` is a limit of the machine, not a branch of
  the source.
-/

deriving instance DecidableEq for Except

namespace FlatImage

/-! ## Bytes, little-endian words -/

abbrev Byte := Fin 256

abbrev Path := String

/-- Value of a byte string read as a little-endian unsigned number (the value that
`file_binary.read(reinterpret_cast<char*>(&size), sizeof(size))` leaves in `size`). -/
def le_u64 (bs : List Byte) : Nat :=
  bs.foldr (fun b acc => b.val + 256 * acc) 0

/-- The `k` low-order bytes of `n`, least significant first. -/
def le_bytes : Nat → Nat → List Byte
  | 0, _ => []
  | k + 1, n => ⟨n % 256, Nat.mod_lt n (by decide)⟩ :: le_bytes k (n / 256)

/-! ## File system -/

/-- A regular file: its bytes and its permission bits. -/
structure FileNode where
  content : List Byte
  perms : Nat
deriving DecidableEq

/-- The files visible to the launcher, and the answers of the operating system to
attempts to open or write an output file. A write of fewer than `write_through` bytes to a
fresh `std::ofstream` stays in the buffer of the stream and reaches the operating system
only when the stream is closed, where a refusal is not reported. -/
structure FileSys where
  node : Path → Option FileNode
  can_open : Path → Bool
  can_write : Path → Bool
  perm_default : Nat
  write_through : Nat

namespace FileSys

/-- Model of `fs::exists(path, ec)`. -/
def «exists» (fs : FileSys) (p : Path) : Bool :=
  (fs.node p).isSome

/-- Create or replace the file at `p`. -/
def put (fs : FileSys) (p : Path) (n : FileNode) : FileSys :=
  { fs with node := fun q => if q = p then some n else fs.node q }

/-- Model of `fs::permissions(path, perms, ec)`: replaces the permission bits of an
existing file and does nothing otherwise. -/
def permissions (fs : FileSys) (p : Path) (perms : Nat) : FileSys :=
  match fs.node p with
  | none => fs
  | some n => fs.put p { n with perms := perms }

end FileSys

/-- The value of `fs::perms::owner_all | fs::perms::group_all`. -/
def perms_owner_group_all : Nat := 0o770

/-- Model of `fs::path::operator/` for POSIX paths. -/
def path_join (a b : Path) : Path :=
  if b.data.head? = some '/' then b
  else if a = "" then b
  else if a.data.getLast? = some '/' then a ++ b
  else a ++ "/" ++ b

/-! ## Input stream over the self-image -/

/-- State of the `std::ifstream file_binary`: the bytes of the file, the get position
and the `failbit`. `eofbit` is only ever set together with `failbit` by the reads
below and is cleared by `seekg`, so it is not tracked. -/
structure IfStream where
  data : List Byte
  pos : Nat
  failbit : Bool

namespace IfStream

/-- A stream freshly opened on a file. -/
def «open» (data : List Byte) : IfStream :=
  ⟨data, 0, false⟩

/-- Model of `seekg(pos)`: nothing happens on a failed stream; a position that is negative
as a `std::streamoff` (bit 63 set) is refused and sets `failbit`; any other position is
accepted, also one past the end of the file. -/
def seekg (s : IfStream) (pos : Nat) : IfStream :=
  if s.failbit then s
  else if 2 ^ 63 ≤ pos then { s with failbit := true }
  else { s with pos := pos }

/-- Model of `read(buf, n)`: on a good stream with `n` bytes left it delivers them and
advances; otherwise it sets `failbit` and the caller sees a false stream. -/
def read (s : IfStream) (n : Nat) : IfStream × Option (List Byte) :=
  if s.failbit then (s, none)
  else if s.pos + n ≤ s.data.length then
    ({ s with pos := s.pos + n }, some ((s.data.drop s.pos).take n))
  else ({ s with pos := max s.pos s.data.length, failbit := true }, none)

/-- Model of `tellg()` converted to `uint64_t`: `-1` on a failed stream. -/
def tellg (s : IfStream) : Nat :=
  if s.failbit then 2 ^ 64 - 1 else s.pos % 2 ^ 64

end IfStream

/-! ## The payload walk of `relocate` -/

/-- Outcome of one extraction step: the file system and the stream after the step, and
either the pair `(offset_beg, offset_end)` or the message of the exception. -/
structure StepResult where
  fs : FileSys
  file_binary : IfStream
  ret : Except String (Nat × Nat)

/-- The lambda `f_write_from_offset` of `relocate` (boot.cpp, lines 162-191). The output
stream `of` is buffered: `of.write` hands a payload of at least `write_through` bytes to
the operating system and reports its refusal; a smaller payload only fills the buffer and
is flushed when `of` is destroyed at the end of the block, where a refusal is dropped. -/
def f_write_from_offset (fs : FileSys) (file_binary : IfStream) (path_file : Path)
    (offset_end : Nat) : StepResult :=
  let offset_beg := offset_end
  -- Set file position
  let file_binary := file_binary.seekg offset_beg
  -- Read size bytes (FATAL if fails)
  match file_binary.read 8 with
  | (file_binary, none) => ⟨fs, file_binary, .error "Could not read binary size"⟩
  | (file_binary, some raw) =>
    let size := le_u64 raw
    if fs.exists path_file then
      let file_binary := file_binary.seekg ((offset_beg + size + 8) % 2 ^ 64)
      ⟨fs, file_binary, .ok (offset_beg, file_binary.tellg)⟩
    else
      -- std::vector<char> buffer(size) refuses a size above max_size()
      if 2 ^ 63 ≤ size then ⟨fs, file_binary, .error "cannot create std::vector larger than max_size()"⟩
      else
        match file_binary.read size with
        | (file_binary, none) => ⟨fs, file_binary, .error "Could not read binary"⟩
        | (file_binary, some buffer) =>
          -- Open output binary file
          if fs.can_open path_file = false then
            ⟨fs, file_binary, .error "Could not open output file"⟩
          else
            let fs := fs.put path_file ⟨[], fs.perm_default⟩
            -- Write binary: `of.write` sees a refusal only when the payload is written
            -- through; a smaller payload stays in the buffer of the stream
            if fs.can_write path_file = false ∧ fs.write_through ≤ size then
              ⟨fs, file_binary, .error "Could not write binary file"⟩
            else
              -- the bytes reach the file if the operating system accepts them; a refusal
              -- met when the stream is closed leaves the file empty and is not reported
              let written : List Byte := if fs.can_write path_file then buffer else []
              let fs := fs.put path_file ⟨written, fs.perm_default⟩
              -- Set permissions
              let fs := fs.permissions path_file perms_owner_group_all
              ⟨fs, file_binary, .ok (offset_beg, file_binary.tellg)⟩

/-- The thirteen consecutive calls of `f_write_from_offset` in `relocate` (boot.cpp, lines
199-211), as a loop over the destination paths: each call takes the `offset_end` returned
by the previous one, and an exception ends the walk. -/
def payload_walk (fs : FileSys) (file_binary : IfStream) :
    List Path → Nat → Nat → StepResult
  | [], offset_beg, offset_end => ⟨fs, file_binary, .ok (offset_beg, offset_end)⟩
  | p :: rest, _, offset_end =>
    let r := f_write_from_offset fs file_binary p offset_end
    match r.ret with
    | .error e => ⟨r.fs, r.file_binary, .error e⟩
    | .ok (offset_beg, offset_end) => payload_walk r.fs r.file_binary rest offset_beg offset_end

/-- Modelled from the spec: `ns_elf::copy_binary` (elf.hpp is not among the sources). The
spec (4.2) has it copy the bytes `[offset_begin, offset_end)` of the source to the
destination path, without rolling back on an error, and counts a failed copy as fatal
(section 7). The second component is the error, if any. -/
def copy_binary (fs : FileSys) (input : List Byte) (path_file_output : Path)
    (span : Nat × Nat) : FileSys × Option String :=
  if fs.can_open path_file_output = false then (fs, some "Failed to open out file")
  else
    let fs := fs.put path_file_output ⟨[], fs.perm_default⟩
    if fs.can_write path_file_output = false then (fs, some "Failed to write out file")
    else
      (fs.put path_file_output ⟨(input.drop span.1).take (span.2 - span.1), fs.perm_default⟩,
        none)

/-- The lambda `f_write_from_header` of `relocate` (boot.cpp, lines 145-160).
`skip_elf_header` stands for `ns_elf::skip_elf_header(path_absolute, offset)` (elf.hpp is
not among the sources): applied to the bytes of the self-image and a base offset it gives
the length of the program image that starts there. The parameter `offset_end` shadows the
variable of the same name in `relocate`. The stream is not touched. -/
def f_write_from_header (skip_elf_header : List Byte → Nat → Nat) (fs : FileSys)
    (file_binary : IfStream) (path_file : Path) (offset_end : Nat) : StepResult :=
  -- Update offsets
  let offset_beg := offset_end
  let offset_end := (skip_elf_header file_binary.data offset_beg + offset_beg) % 2 ^ 64
  -- Write binary only if it doesnt already exist
  let copied : FileSys × Option String :=
    if fs.exists path_file then (fs, none)
    else copy_binary fs file_binary.data path_file (offset_beg, offset_end)
  match copied with
  | (fs, some e) => ⟨fs, file_binary, .error e⟩
  | (fs, none) =>
    -- Set permissions (the throwing overload of fs::permissions)
    if fs.exists path_file then
      ⟨fs.permissions path_file perms_owner_group_all, file_binary, .ok (offset_beg, offset_end)⟩
    else ⟨fs, file_binary, .error "filesystem error: cannot set permissions"⟩

/-- Destinations of the thirteen length-prefixed payloads, in the order of the calls in
`relocate` (boot.cpp, lines 199-211). -/
def payload_paths (path_dir_app_bin path_dir_busybox : Path) : List Path :=
  [ path_join path_dir_app_bin "bash"
  , path_join path_dir_busybox "busybox"
  , path_join path_dir_app_bin "bwrap"
  , path_join path_dir_app_bin "ciopfs"
  , path_join path_dir_app_bin "dwarfs_aio"
  , path_join path_dir_app_bin "fim_portal"
  , path_join path_dir_app_bin "fim_portal_daemon"
  , path_join path_dir_app_bin "fim_bwrap_apparmor"
  , path_join path_dir_app_bin "janitor"
  , path_join path_dir_app_bin "lsof"
  , path_join path_dir_app_bin "overlayfs"
  , path_join path_dir_app_bin "unionfs"
  , path_join path_dir_app_bin "proot" ]

/-- The section "Write binaries" of `relocate` (boot.cpp, lines 193-212): the stream is
opened on the self-image, `fim_boot` is written by `f_write_from_header` called with the
literal offset `0`, then the thirteen payloads are walked. The value given to `offset_end`
at line 143 is replaced by the result of the first call before it is read. -/
def relocate_write_binaries (skip_elf_header : List Byte → Nat → Nat) (fs : FileSys)
    (self : List Byte) (path_dir_instance path_dir_app_bin path_dir_busybox : Path) :
    StepResult :=
  let file_binary := IfStream.open self
  let r := f_write_from_header skip_elf_header fs file_binary
    (path_join path_dir_instance "fim_boot") 0
  match r.ret with
  | .error e => ⟨r.fs, r.file_binary, .error e⟩
  | .ok (offset_beg, offset_end) =>
    payload_walk r.fs r.file_binary (payload_paths path_dir_app_bin path_dir_busybox)
      offset_beg offset_end

/-! ## Environment (env.hpp) -/

/-- The process environment. -/
abbrev Env := String → Option String

/-- Model of `setenv(3)`: a name that is empty or contains the equals sign is refused;
an existing value is kept unless `overwrite` is set. -/
def setenv (env : Env) (name value : String) (overwrite : Bool) : Env :=
  if name = "" ∨ '=' ∈ name.data then env
  else if overwrite = true ∨ env name = none then
    fun k => if k = name then some value else env k
  else env

namespace ns_env

inductive Replace where
  | Y
  | N
deriving DecidableEq

/-- The function `ns_env::set` (env.hpp, lines 65-72). -/
def set (env : Env) (name value : String) (replace : Replace) : Env :=
  setenv env name value (replace == Replace.Y)

end ns_env

/-- Outcome of the extraction part of `relocate`. -/
structure RelocateResult where
  fs : FileSys
  env : Env
  ret : Except String Nat

/-- The part of `relocate` from "Write binaries" to the publication of `FIM_OFFSET`
(boot.cpp, lines 193-225). The symbolic links created in between use the non-throwing
overload and never replace an existing entry; they are left out. -/
def relocate_extract (skip_elf_header : List Byte → Nat → Nat) (fs : FileSys) (env : Env)
    (self : List Byte) (path_dir_instance path_dir_app_bin path_dir_busybox : Path) :
    RelocateResult :=
  let w := relocate_write_binaries skip_elf_header fs self path_dir_instance path_dir_app_bin
    path_dir_busybox
  match w.ret with
  | .error e => ⟨w.fs, env, .error e⟩
  | .ok (_, offset_end) =>
    -- Filesystem starts here
    ⟨w.fs, ns_env.set env "FIM_OFFSET" (toString offset_end) ns_env.Replace.Y, .ok offset_end⟩

/-! ## The relocation gate of `main` -/

/-- What `main` does after its preliminary checks. -/
inductive MainAction where
  | print_version
  | exit_failure
  | relocate
  | boot
deriving DecidableEq

/-- The control flow of `main` (boot.cpp, lines 266-317) up to the choice between
`relocate` and `boot`. `file_self` is the result of `ns_filesystem::ns_path::file_self()`:
the bytes of the running executable, or the error. -/
def main (skip_elf_header : List Byte → Nat → Nat) (argv : List String)
    (file_self : Except String (List Byte)) : MainAction :=
  -- Print version and exit
  if argv.length > 1 ∧ argv.get? 1 = some "fim-version" then .print_version
  else
    -- Get path to self
    match file_self with
    | .error _ => .exit_failure
    | .ok self =>
      -- If it is outside /tmp, move the binary
      if self.length ≠ skip_elf_header self 0 then .relocate
      else .boot

end FlatImage

namespace FlatImage

/-! ## Reserved region (reserved.hpp, modelled from the spec) -/

namespace ns_reserved

/-- Modelled from the spec: `ns_reserved::write` (reserved.hpp is not among the sources).
The spec (4.5, 7) has it write the `length` bytes of `data` at `offset` of the file, without
truncating the file or touching any other byte, and fail when the reserved size is smaller
than the data or the region cannot be written; the region is taken to lie inside an
existing file. The second component is the error, if any. -/
def write (fs : FileSys) (path_file_binary : Path) (offset size : Nat) (data : List Byte) :
    FileSys × Option String :=
  if size < data.length then (fs, some "Size of data exceeds available space")
  else
    match fs.node path_file_binary with
    | none => (fs, some "Failed to open input file")
    | some n =>
      if n.content.length < offset + data.length then (fs, some "Failed to write data")
      else
        (fs.put path_file_binary
          { n with content := n.content.take offset ++ data ++ n.content.drop (offset + data.length) },
          none)

/-- Modelled from the spec: `ns_reserved::read` (reserved.hpp is not among the sources).
The spec (4.5, 7) has it read `length` bytes at `offset` of the file into the buffer and
fail when the region cannot be read. -/
def read (fs : FileSys) (path_file_binary : Path) (offset length : Nat) :
    Except String (List Byte) :=
  match fs.node path_file_binary with
  | none => .error "Failed to open input file"
  | some n =>
    if n.content.length < offset + length then .error "Failed to read data"
    else .ok ((n.content.drop offset).take length)

end ns_reserved

/-! ## Permission bits (permissions.hpp) -/

namespace ns_permissions

/-- The bit record `struct Bits` (permissions.hpp, lines 22-36): twelve one-bit flags, all
cleared by the default constructor, in one `uint64_t` storage unit. The 52 bits of the unit
that no flag names are `spare`: no member function touches them, and `std::memcpy` and
`reinterpret_cast` copy them with the flags. In a record made by the default constructor
they are taken to be zero (spec 6.2). -/
structure Bits where
  home : Bool := false
  media : Bool := false
  audio : Bool := false
  wayland : Bool := false
  xorg : Bool := false
  dbus_user : Bool := false
  dbus_system : Bool := false
  udev : Bool := false
  usb : Bool := false
  input : Bool := false
  gpu : Bool := false
  network : Bool := false
  spare : Fin (2 ^ 52) := ⟨0, Nat.two_pow_pos 52⟩
deriving DecidableEq

/-- The value of `sizeof(Bits)`: one `uint64_t` storage unit. -/
def sizeof_Bits : Nat := 8

/-- Model of `std::tolower` in the C locale. -/
def tolower (c : Char) : Char :=
  if 65 ≤ c.toNat ∧ c.toNat ≤ 90 then Char.ofNat (c.toNat + 32) else c

/-- The call `std::ranges::transform(permission, permission.begin(), tolower)`. -/
def transform_tolower (permission : String) : String :=
  ⟨permission.data.map tolower⟩

namespace Bits

/-- The method `Bits::set` (permissions.hpp, lines 37-54). `ns_match::match` (match.hpp is
not among the sources) runs the action of the case equal to the lowered name, and its
result is discarded with `std::ignore`. -/
def set (b : Bits) (permission : String) (value : Bool) : Bits :=
  let permission := transform_tolower permission
  if permission = "home" then { b with home := value }
  else if permission = "media" then { b with media := value }
  else if permission = "audio" then { b with audio := value }
  else if permission = "wayland" then { b with wayland := value }
  else if permission = "xorg" then { b with xorg := value }
  else if permission = "dbus_user" then { b with dbus_user := value }
  else if permission = "dbus_system" then { b with dbus_system := value }
  else if permission = "udev" then { b with udev := value }
  else if permission = "usb" then { b with usb := value }
  else if permission = "input" then { b with input := value }
  else if permission = "gpu" then { b with gpu := value }
  else if permission = "network" then { b with network := value }
  else b

/-- The method `Bits::to_vector_string` (permissions.hpp, lines 55-71). -/
def to_vector_string (b : Bits) : List String :=
  let out : List String := []
  let out := if b.home then out ++ ["home"] else out
  let out := if b.media then out ++ ["media"] else out
  let out := if b.audio then out ++ ["audio"] else out
  let out := if b.wayland then out ++ ["wayland"] else out
  let out := if b.xorg then out ++ ["xorg"] else out
  let out := if b.dbus_user then out ++ ["dbus_user"] else out
  let out := if b.dbus_system then out ++ ["dbus_system"] else out
  let out := if b.udev then out ++ ["udev"] else out
  let out := if b.usb then out ++ ["usb"] else out
  let out := if b.input then out ++ ["input"] else out
  let out := if b.gpu then out ++ ["gpu"] else out
  let out := if b.network then out ++ ["network"] else out
  out

/-- The storage unit of the record as a number: the flags occupy bits 0 to 11 in the order
of declaration (x86-64 allocates bit-fields from the least significant bit), the spare
bits are bits 12 to 63. -/
def word (b : Bits) : Nat :=
  b.home.toNat + 2 * b.media.toNat + 4 * b.audio.toNat + 8 * b.wayland.toNat
    + 16 * b.xorg.toNat + 32 * b.dbus_user.toNat + 64 * b.dbus_system.toNat
    + 128 * b.udev.toNat + 256 * b.usb.toNat + 512 * b.input.toNat + 1024 * b.gpu.toNat
    + 2048 * b.network.toNat + 4096 * b.spare.val

/-- The bytes seen through `reinterpret_cast<char*>(&bits)`. -/
def to_bytes (b : Bits) : List Byte :=
  le_bytes sizeof_Bits b.word

/-- The record whose storage unit holds the number `w`: the twelve flags are bits 0 to 11
and the spare bits are bits 12 to 63. -/
def of_word (w : Nat) : Bits :=
  { home := decide (w / 1 % 2 = 1)
    media := decide (w / 2 % 2 = 1)
    audio := decide (w / 4 % 2 = 1)
    wayland := decide (w / 8 % 2 = 1)
    xorg := decide (w / 16 % 2 = 1)
    dbus_user := decide (w / 32 % 2 = 1)
    dbus_system := decide (w / 64 % 2 = 1)
    udev := decide (w / 128 % 2 = 1)
    usb := decide (w / 256 % 2 = 1)
    input := decide (w / 512 % 2 = 1)
    gpu := decide (w / 1024 % 2 = 1)
    network := decide (w / 2048 % 2 = 1)
    spare := ⟨w / 4096 % 2 ^ 52, Nat.mod_lt _ (Nat.two_pow_pos 52)⟩ }

/-- The record obtained by `std::memcpy(&bits, buffer, sizeof(bits))`: all 64 bits of the
buffer are copied, the twelve flags and the spare bits. -/
def of_bytes (buffer : List Byte) : Bits :=
  of_word (le_u64 buffer)

end Bits

/-- The function `ns_permissions::write` (permissions.hpp, lines 74-82). -/
def write (fs : FileSys) (path_file_binary : Path) (offset size : Nat) (bits : Bits) :
    FileSys × Option String :=
  ns_reserved.write fs path_file_binary offset size bits.to_bytes

/-- The function `ns_permissions::read` (permissions.hpp, lines 84-96). -/
def read (fs : FileSys) (path_file_binary : Path) (offset size : Nat) : Except String Bits :=
  if sizeof_Bits > size then .error "Not enough space for read"
  else
    match ns_reserved.read fs path_file_binary offset sizeof_Bits with
    | .error e => .error e
    | .ok buffer => .ok (Bits.of_bytes buffer)

/-- Conversion of an `int64_t` member to the `uint64_t` parameter it is passed as. -/
def to_uint64 (x : Int) : Nat :=
  (x % 2 ^ 64).toNat

/-- The class `Permissions` (permissions.hpp, lines 99-154). -/
structure Permissions where
  m_path_file_binary : Path
  m_offset : Int
  m_size : Int

namespace Permissions

/-- The constructor `Permissions(path_file_binary, begin, end)` (lines 106-112): `m_offset`
is initialised with `begin` and `m_size` with `end`. -/
def construct (path_file_binary : Path) (begin_ end_ : Int) : Permissions :=
  { m_path_file_binary := path_file_binary, m_offset := begin_, m_size := end_ }

/-- The method `Permissions::set` (lines 113-120); an error of the write is logged. -/
def set (p : Permissions) (fs : FileSys) (r : List String) : FileSys :=
  let bits := r.foldl (fun (bits : Bits) e => bits.set e true) {}
  (write fs p.m_path_file_binary (to_uint64 p.m_offset) (to_uint64 p.m_size) bits).1

/-- The method `Permissions::add` (lines 122-130); an error of the read is logged and
nothing is written. -/
def add (p : Permissions) (fs : FileSys) (r : List String) : FileSys :=
  match read fs p.m_path_file_binary (to_uint64 p.m_offset) (to_uint64 p.m_size) with
  | .error _ => fs
  | .ok expected =>
    let expected := r.foldl (fun (bits : Bits) e => bits.set e true) expected
    (write fs p.m_path_file_binary (to_uint64 p.m_offset) (to_uint64 p.m_size) expected).1

/-- The method `Permissions::del` (lines 132-140). -/
def del (p : Permissions) (fs : FileSys) (r : List String) : FileSys :=
  match read fs p.m_path_file_binary (to_uint64 p.m_offset) (to_uint64 p.m_size) with
  | .error _ => fs
  | .ok expected =>
    let expected := r.foldl (fun (bits : Bits) e => bits.set e false) expected
    (write fs p.m_path_file_binary (to_uint64 p.m_offset) (to_uint64 p.m_size) expected).1

/-- The method `Permissions::get` (lines 142-145). -/
def get (p : Permissions) (fs : FileSys) : Except String Bits :=
  read fs p.m_path_file_binary (to_uint64 p.m_offset) (to_uint64 p.m_size)

/-- The method `Permissions::to_vector_string` (lines 147-153): the empty list when the
read fails. -/
def to_vector_string (p : Permissions) (fs : FileSys) : List String :=
  match read fs p.m_path_file_binary (to_uint64 p.m_offset) (to_uint64 p.m_size) with
  | .error _ => []
  | .ok expected => expected.to_vector_string

end Permissions

/-- The twelve capability names in the order of declaration of the flags. -/
def capability_names : List String :=
  ["home", "media", "audio", "wayland", "xorg", "dbus_user", "dbus_system", "udev", "usb",
    "input", "gpu", "network"]

/-- The flag of a record that carries a given capability name. -/
def Bits.flag (b : Bits) (name : String) : Bool :=
  if name = "home" then b.home
  else if name = "media" then b.media
  else if name = "audio" then b.audio
  else if name = "wayland" then b.wayland
  else if name = "xorg" then b.xorg
  else if name = "dbus_user" then b.dbus_user
  else if name = "dbus_system" then b.dbus_system
  else if name = "udev" then b.udev
  else if name = "usb" then b.usb
  else if name = "input" then b.input
  else if name = "gpu" then b.gpu
  else if name = "network" then b.network
  else false

end ns_permissions

/-- A file of twenty bytes, all bits set, standing for an image with a reserved region. -/
def demo_reserved : List Byte := List.replicate 20 255

/-- A file system holding `demo_reserved` at `/fim`. -/
def fs_reserved : FileSys :=
  ⟨fun p => if p = "/fim" then some ⟨demo_reserved, 0o755⟩ else none, fun _ => true,
    fun _ => true, 0o644, 1024⟩

end FlatImage

namespace FlatImage

/-! ## Layout of a packed image, and small concrete inputs -/

/-- A payload segment as `f_write_from_offset` reads it: the length of the payload as eight
little-endian bytes, then the payload. -/
def payload_segment (payload : List Byte) : List Byte :=
  le_bytes 8 payload.length ++ payload

/-- A self-image in the layout that `relocate` walks: a leading program image, the
length-prefixed payload segments, and the filesystem segment. -/
def packed_image (lead : List Byte) (payloads : List (List Byte)) (fsseg : List Byte) :
    List Byte :=
  lead ++ (payloads.map payload_segment).flatten ++ fsseg

/-- A header reader for the examples: a program image is a byte string whose first byte
holds its own length. It stands in for `ns_elf::skip_elf_header` on concrete inputs only;
every general theorem below holds for an arbitrary header reader. -/
def demo_skip_elf_header (f : List Byte) (base : Nat) : Nat :=
  match f.drop base with
  | [] => 0
  | b :: _ => b.val

def demo_payloads : List (List Byte) :=
  [[1], [2, 2], [3], [], [5], [6], [7], [8], [9], [10], [11], [12], [13, 13, 13]]

def demo_lead : List Byte := [4, 0xAA, 0xBB, 0xCC]

def demo_boot : List Byte := [9, 0, 0, 0, 0, 0, 0, 0, 0x77]

def demo_fsseg : List Byte := [0xF5, 0xF5]

/-- Leading program image, thirteen payload segments, filesystem segment. -/
def demo_image : List Byte := packed_image demo_lead demo_payloads demo_fsseg

/-- Leading program image, a second program image, thirteen payload segments, filesystem
segment. -/
def demo_image_two : List Byte :=
  demo_lead ++ demo_boot ++ (demo_payloads.map payload_segment).flatten ++ demo_fsseg

/-- A segment announcing three payload bytes and holding them. -/
def demo_segment : List Byte := [3, 0, 0, 0, 0, 0, 0, 0, 1, 2, 3]

/-- A segment announcing five payload bytes and holding two. -/
def demo_truncated : List Byte := [5, 0, 0, 0, 0, 0, 0, 0, 1, 2]

/-- No file yet; every output can be created and written. -/
def fs_empty : FileSys := ⟨fun _ => none, fun _ => true, fun _ => true, 0o644, 1024⟩

/-- No file yet; no output can be created. -/
def fs_readonly : FileSys := ⟨fun _ => none, fun _ => false, fun _ => false, 0o644, 1024⟩

/-- No file yet; every output can be created, and no write is accepted. -/
def fs_full : FileSys := ⟨fun _ => none, fun _ => true, fun _ => false, 0o644, 1024⟩

/-- The file `/b/bash` is there from an earlier run; no output can be created. -/
def fs_cached : FileSys :=
  ⟨fun p => if p = "/b/bash" then some ⟨[0x42], 0o600⟩ else none, fun _ => false,
    fun _ => false, 0o644, 1024⟩

def env_empty : Env := fun _ => none

end FlatImage

namespace FlatImage

/-! ## Matching a name (match.hpp, modelled from the spec) -/

namespace ns_match

/-- Modelled from the spec: `ns_match::match` over cases built with `ns_match::equal`
(match.hpp is not among the sources). The spec (4.5) has a name matched against the
capability names and an unknown name silently ignored: the action of the first case whose
key equals the value is run on the state, and when no key is equal the state is not
touched and the absence of a match is reported in the returned value, not raised. -/
def «match» {σ : Type} (t : String) : List (String × (σ → σ)) → σ → Except String σ
  | [], _ => .error "No match"
  | (key, action) :: rest, state =>
    if t = key then .ok (action state) else «match» t rest state

end ns_match

namespace ns_permissions

/-- The body of `Bits::set` (permissions.hpp, lines 39-53) written with the modelled
`ns_match::match`: the twelve cases in the order of the source, the returned value
discarded by `std::ignore`. -/
def Bits.set_by_match (b : Bits) (permission : String) (value : Bool) : Bits :=
  let permission := transform_tolower permission
  match ns_match.match permission
    [ ("home", fun (b : Bits) => { b with home := value })
    , ("media", fun (b : Bits) => { b with media := value })
    , ("audio", fun (b : Bits) => { b with audio := value })
    , ("wayland", fun (b : Bits) => { b with wayland := value })
    , ("xorg", fun (b : Bits) => { b with xorg := value })
    , ("dbus_user", fun (b : Bits) => { b with dbus_user := value })
    , ("dbus_system", fun (b : Bits) => { b with dbus_system := value })
    , ("udev", fun (b : Bits) => { b with udev := value })
    , ("usb", fun (b : Bits) => { b with usb := value })
    , ("input", fun (b : Bits) => { b with input := value })
    , ("gpu", fun (b : Bits) => { b with gpu := value })
    , ("network", fun (b : Bits) => { b with network := value }) ] b with
  | .ok bits => bits
  | .error _ => b

/-- Whether a name, once lowered, is one of the twelve capability names. -/
def is_capability (name : String) : Bool :=
  decide (transform_tolower name ∈ capability_names)

end ns_permissions

/-! ## Directories (the directory part of `relocate`, and `ns_env::dir`) -/

/-- The directories visible to the launcher and the answers of the operating system:
whether a directory can be created, which unique name a template is given, and the
canonical form of a path. -/
structure DirSys where
  is_dir : Path → Bool
  can_create : Path → Bool
  unique_name : Path → Option Path
  canonical : Path → Path

/-- The proper ancestors of a path: its prefixes that end before a separator. -/
def path_parents (p : Path) : List Path :=
  (List.range p.data.length).filterMap (fun i =>
    if 0 < i ∧ p.data.get? i = some '/' then some ⟨p.data.take i⟩ else none)

namespace DirSys

/-- Model of `fs::exists(path)`: true for a file and for a directory. -/
def «exists» (dirs : DirSys) (files : FileSys) (p : Path) : Bool :=
  files.exists p || dirs.is_dir p

/-- Model of the throwing overload of `fs::create_directory(path)`: `false` when the
directory is already there, `true` when it was created, a `filesystem_error` when the path
is taken by a file or the directory cannot be created. -/
def create_directory (dirs : DirSys) (files : FileSys) (p : Path) :
    DirSys × Except String Bool :=
  if dirs.is_dir p then (dirs, .ok false)
  else if files.exists p then (dirs, .error "filesystem error: cannot create directory: File exists")
  else if dirs.can_create p then
    ({ dirs with is_dir := fun q => decide (q = p) || dirs.is_dir q }, .ok true)
  else (dirs, .error "filesystem error: cannot create directory")

/-- Model of the throwing overload of `fs::create_directories(path)`: as
`create_directory`, and the missing ancestors are created as well. -/
def create_directories (dirs : DirSys) (files : FileSys) (p : Path) :
    DirSys × Except String Bool :=
  if dirs.is_dir p then (dirs, .ok false)
  else if files.exists p then (dirs, .error "filesystem error: cannot create directories: File exists")
  else if dirs.can_create p then
    ({ dirs with is_dir := fun q => decide (q = p) || decide (q ∈ path_parents p) || dirs.is_dir q },
      .ok true)
  else (dirs, .error "filesystem error: cannot create directories")

end DirSys

/-- The guard `ethrow_if(not fs::exists(p) and not fs::create_directories(p), msg)` of
`relocate` (boot.cpp, lines 91, 97, 103, 109): the second component is the exception, if
any. The creation is not attempted when the path exists. -/
def exists_or_create_directories (dirs : DirSys) (files : FileSys) (p : Path) (msg : String) :
    DirSys × Option String :=
  if dirs.exists files p then (dirs, none)
  else
    match dirs.create_directories files p with
    | (dirs, .error e) => (dirs, some e)
    | (dirs, .ok true) => (dirs, none)
    | (dirs, .ok false) => (dirs, some msg)

/-- The guard `ethrow_if(not fs::exists(p) and not fs::create_directory(p), msg)` of
`relocate` (boot.cpp, lines 130, 137). -/
def exists_or_create_directory (dirs : DirSys) (files : FileSys) (p : Path) (msg : String) :
    DirSys × Option String :=
  if dirs.exists files p then (dirs, none)
  else
    match dirs.create_directory files p with
    | (dirs, .error e) => (dirs, some e)
    | (dirs, .ok true) => (dirs, none)
    | (dirs, .ok false) => (dirs, some msg)

namespace ns_linux

/-- Modelled from the spec: `ns_linux::mkdtemp` (linux.hpp is not among the sources). The
spec (4.3) has the instance directory created from a unique-name template by one race-free
operation that both reserves the name and creates the directory, an already existing name
being a failure. The name is the answer `unique_name` of the operating system. -/
def mkdtemp (dirs : DirSys) (files : FileSys) (template : Path) : DirSys × Except String Path :=
  match dirs.unique_name template with
  | none => (dirs, .error "Failed to create temporary dir")
  | some p =>
    if dirs.exists files p then (dirs, .error "Failed to create temporary dir")
    else ({ dirs with is_dir := fun q => decide (q = p) || dirs.is_dir q }, .ok p)

end ns_linux

/-- The paths handed from the directory part of `relocate` to the extraction. -/
structure RelocatePaths where
  path_dir_instance : Path
  path_dir_app_bin : Path
  path_dir_busybox : Path
deriving DecidableEq

/-- Outcome of the directory part of `relocate`. -/
structure RelocateDirsResult where
  dirs : DirSys
  env : Env
  ret : Except String RelocatePaths

/-- The part of `relocate` that creates the directories and publishes their paths (boot.cpp,
lines 85-139). `COMMIT` and `TIMESTAMP` are the build macros of those names,
`path_absolute` is the target of `/proc/self/exe`, and `path_dir_instance_template` is the
variable `path_dir_instance_prefix` of the source. -/
def relocate_directories (COMMIT TIMESTAMP : String) (files : FileSys) (dirs : DirSys)
    (env : Env) (path_absolute : Path) : RelocateDirsResult :=
  -- Create base dir
  let path_dir_base : Path := "/tmp/fim"
  match exists_or_create_directories dirs files path_dir_base "Failed to create directory" with
  | (dirs, some e) => ⟨dirs, env, .error e⟩
  | (dirs, none) =>
  -- Make the temporary directory name
  let path_dir_app : Path :=
    path_join (path_join path_dir_base "app") (COMMIT ++ "_" ++ TIMESTAMP)
  match exists_or_create_directories dirs files path_dir_app "Failed to create directory" with
  | (dirs, some e) => ⟨dirs, env, .error e⟩
  | (dirs, none) =>
  -- Create bin dir
  let path_dir_app_bin : Path := path_join path_dir_app "bin"
  match exists_or_create_directories dirs files path_dir_app_bin "Failed to create directory"
    with
  | (dirs, some e) => ⟨dirs, env, .error e⟩
  | (dirs, none) =>
  -- Create busybox dir
  let path_dir_busybox : Path := path_join path_dir_app_bin "busybox"
  match exists_or_create_directories dirs files path_dir_busybox "Failed to create directory"
    with
  | (dirs, some e) => ⟨dirs, env, .error e⟩
  | (dirs, none) =>
  -- Set variables
  let env := ns_env.set env "FIM_DIR_GLOBAL" path_dir_base ns_env.Replace.Y
  let env := ns_env.set env "FIM_DIR_APP" path_dir_app ns_env.Replace.Y
  let env := ns_env.set env "FIM_DIR_APP_BIN" path_dir_app_bin ns_env.Replace.Y
  let env := ns_env.set env "FIM_DIR_BUSYBOX" path_dir_busybox ns_env.Replace.Y
  let env := ns_env.set env "FIM_FILE_BINARY" path_absolute ns_env.Replace.Y
  -- Create instance directory
  let path_dir_instance_template : Path := path_dir_app ++ "/" ++ "instance" ++ "/"
  -- Create temp dir to mount filesystems into
  match ns_linux.mkdtemp dirs files path_dir_instance_template with
  | (dirs, .error e) => ⟨dirs, env, .error e⟩
  | (dirs, .ok path_dir_instance) =>
  let env := ns_env.set env "FIM_DIR_INSTANCE" path_dir_instance ns_env.Replace.Y
  -- Path to directory with mount points
  let path_dir_mount : Path := path_join path_dir_instance "mount"
  let env := ns_env.set env "FIM_DIR_MOUNT" path_dir_mount ns_env.Replace.Y
  match exists_or_create_directory dirs files path_dir_mount "Could not mount directory" with
  | (dirs, some e) => ⟨dirs, env, .error e⟩
  | (dirs, none) =>
  -- Path to ext mount dir is a directory called 'ext'
  let path_dir_mount_ext : Path := path_join path_dir_mount "ext"
  let env := ns_env.set env "FIM_DIR_MOUNT_EXT" path_dir_mount_ext ns_env.Replace.Y
  match exists_or_create_directory dirs files path_dir_mount_ext "Could not mount directory"
    with
  | (dirs, some e) => ⟨dirs, env, .error e⟩
  | (dirs, none) => ⟨dirs, env, .ok ⟨path_dir_instance, path_dir_app_bin, path_dir_busybox⟩⟩

namespace ns_env

/-- The function `ns_env::dir` (env.hpp, lines 31-46): the exception is raised when the
variable is not set and when `fs::create_directory` returns `false`. -/
def dir (dirs : DirSys) (files : FileSys) (env : Env) (name : String) :
    DirSys × Except String Path :=
  -- Get environment variable
  match env name with
  -- Check if variable exists
  | none => (dirs, .error "Variable not set")
  | some value =>
    -- Create if not exists
    match dirs.create_directory files value with
    | (dirs, .error e) => (dirs, .error e)
    | (dirs, .ok false) => (dirs, .error "Could not create directory")
    | (dirs, .ok true) => (dirs, .ok (dirs.canonical value))

end ns_env

/-- No directory yet; every directory can be created; the unique name of a template is
the template followed by `AbCdEf`; paths are their own canonical form. -/
def dirs_empty : DirSys :=
  ⟨fun _ => false, fun _ => true, fun t => some (t ++ "AbCdEf"), fun p => p⟩

/-- The directory `/d` exists; every directory can be created. -/
def dirs_with_d : DirSys :=
  ⟨fun p => decide (p = "/d"), fun _ => true, fun t => some (t ++ "AbCdEf"), fun p => p⟩

/-- An environment that already defines the published names, and `FIM_DIR_DATA` as `/d`. -/
def env_stale : Env := fun k =>
  if k = "FIM_DIR_DATA" then some "/d"
  else if k.data.take 4 = "FIM_".data then some "stale" else none

end FlatImage

set_option maxRecDepth 1000000

/-! # Theorems -/

namespace FlatImage

/-! ## Stream and file-system lemmas -/

theorem IfStream.seekg_ok (s : IfStream) (o : Nat) (hgood : s.failbit = false)
    (ho : o < 2 ^ 63) : s.seekg o = ⟨s.data, o, false⟩ := by
  unfold IfStream.seekg
  rw [if_neg (by simp [hgood]), if_neg (by omega), hgood]

theorem IfStream.read_ok (s : IfStream) (n : Nat) (hgood : s.failbit = false)
    (hn : s.pos + n ≤ s.data.length) :
    s.read n = (⟨s.data, s.pos + n, false⟩, some ((s.data.drop s.pos).take n)) := by
  unfold IfStream.read
  rw [if_neg (by simp [hgood]), if_pos hn, hgood]

theorem IfStream.tellg_ok (s : IfStream) (hgood : s.failbit = false) (hp : s.pos < 2 ^ 64) :
    s.tellg = s.pos := by
  unfold IfStream.tellg
  rw [if_neg (by simp [hgood]), Nat.mod_eq_of_lt hp]

theorem IfStream.seekg_data (s : IfStream) (o : Nat) : (s.seekg o).data = s.data := by
  unfold IfStream.seekg; split_ifs <;> rfl

theorem IfStream.read_data (s : IfStream) (n : Nat) : (s.read n).1.data = s.data := by
  unfold IfStream.read; split_ifs <;> rfl

theorem IfStream.read_data_of_eq {s s1 : IfStream} {n : Nat} {r : Option (List Byte)}
    (h : s.read n = (s1, r)) : s1.data = s.data := by
  have := IfStream.read_data s n
  rw [h] at this
  exact this

/-- A read that delivers bytes started on a good stream with enough bytes left. -/
theorem IfStream.read_some {s s1 : IfStream} {n : Nat} {raw : List Byte}
    (h : s.read n = (s1, some raw)) :
    s.failbit = false ∧ s.pos + n ≤ s.data.length ∧ s1 = ⟨s.data, s.pos + n, false⟩ ∧
      raw = (s.data.drop s.pos).take n := by
  unfold IfStream.read at h
  split_ifs at h with h1 h2
  · simp at h
  · simp only [Prod.mk.injEq, Option.some.injEq] at h
    have hf : s.failbit = false := by simpa using h1
    refine ⟨hf, h2, ?_, h.2.symm⟩
    rw [← h.1, hf]
  · simp at h

/-- The same after a seek: the seek was accepted and the bytes come from the target. -/
theorem IfStream.seekg_read_some {s s1 : IfStream} {o n : Nat} {raw : List Byte}
    (h : (s.seekg o).read n = (s1, some raw)) :
    s.failbit = false ∧ o < 2 ^ 63 ∧ o + n ≤ s.data.length ∧ s1 = ⟨s.data, o + n, false⟩ ∧
      raw = (s.data.drop o).take n := by
  obtain ⟨hf, hle, hs1, hraw⟩ := IfStream.read_some h
  unfold IfStream.seekg at hf hle hs1 hraw
  by_cases hb : s.failbit = true
  · simp [hb] at hf
  · by_cases ho : 2 ^ 63 ≤ o
    · rw [if_neg hb, if_pos ho] at hf
      simp at hf
    · rw [if_neg hb, if_neg ho] at hle hs1 hraw
      exact ⟨by simpa using hb, by omega, hle, hs1, hraw⟩

theorem IfStream.read_short (s : IfStream) (o n : Nat) (h : s.data.length < o + n) :
    ((s.seekg o).read n).2 = none := by
  rcases hr : (s.seekg o).read n with ⟨s1, _ | raw⟩
  · rfl
  · have := IfStream.seekg_read_some hr
    omega

theorem le_u64_lt (bs : List Byte) : le_u64 bs < 256 ^ bs.length := by
  induction bs with
  | nil => simp [le_u64]
  | cons b t ih =>
    have hb := b.isLt
    simp only [le_u64, List.foldr_cons, List.length_cons] at ih ⊢
    rw [pow_succ]
    omega

theorem le_bytes_length (k n : Nat) : (le_bytes k n).length = k := by
  induction k generalizing n with
  | zero => rfl
  | succ k ih => simp [le_bytes, ih]

theorem le_u64_le_bytes (k n : Nat) (h : n < 256 ^ k) : le_u64 (le_bytes k n) = n := by
  induction k generalizing n with
  | zero => simp at h; simp [le_bytes, le_u64, h]
  | succ k ih =>
    have hk : n / 256 < 256 ^ k := by
      rw [pow_succ] at h
      exact Nat.div_lt_of_lt_mul (by rw [Nat.mul_comm]; exact h)
    have := ih (n / 256) hk
    simp only [le_u64] at this
    simp only [le_bytes, le_u64, List.foldr_cons, this]
    omega

theorem FileSys.node_put (fs : FileSys) (p q : Path) (n : FileNode) :
    (fs.put p n).node q = if q = p then some n else fs.node q := rfl

theorem FileSys.node_permissions_ne (fs : FileSys) (p q : Path) (m : Nat) (h : q ≠ p) :
    (fs.permissions p m).node q = fs.node q := by
  unfold FileSys.permissions
  cases fs.node p with
  | none => rfl
  | some n => simp [FileSys.node_put, h]

theorem FileSys.exists_put (fs : FileSys) (p q : Path) (n : FileNode) :
    (fs.put p n).exists q = (decide (q = p) || fs.exists q) := by
  unfold FileSys.exists FileSys.put
  by_cases h : q = p <;> simp [h]

theorem FileSys.exists_permissions (fs : FileSys) (p q : Path) (m : Nat) :
    (fs.permissions p m).exists q = fs.exists q := by
  unfold FileSys.permissions
  cases hn : fs.node p with
  | none => rfl
  | some n =>
    simp only [FileSys.exists_put]
    by_cases h : q = p
    · subst h; simp [FileSys.exists, hn]
    · simp [h]

theorem FileSys.permissions_oracles (fs : FileSys) (p : Path) (m : Nat) :
    (fs.permissions p m).can_open = fs.can_open ∧
    (fs.permissions p m).can_write = fs.can_write ∧
    (fs.permissions p m).perm_default = fs.perm_default := by
  unfold FileSys.permissions
  cases fs.node p <;> exact ⟨rfl, rfl, rfl⟩

theorem FileSys.node_none_of_exists_false {fs : FileSys} {p : Path}
    (h : fs.exists p = false) : fs.node p = none := by
  unfold FileSys.exists at h
  cases hn : fs.node p with
  | none => rfl
  | some n => simp [hn] at h

/-! ## One extraction step -/

/-- The four ways a step can end, with the file system each leaves behind. -/
theorem f_write_from_offset_cases (fs : FileSys) (s : IfStream) (p : Path) (o : Nat) :
    ((f_write_from_offset fs s p o).fs = fs ∧
        ∃ m, (f_write_from_offset fs s p o).ret = .error m) ∨
    (fs.exists p = true ∧ (f_write_from_offset fs s p o).fs = fs ∧
        ∃ e, (f_write_from_offset fs s p o).ret = .ok (o, e)) ∨
    (fs.exists p = false ∧
        (f_write_from_offset fs s p o).fs = fs.put p ⟨[], fs.perm_default⟩ ∧
        ∃ m, (f_write_from_offset fs s p o).ret = .error m) ∨
    (fs.exists p = false ∧ fs.can_open p = true ∧
        ∃ buf e, (f_write_from_offset fs s p o).fs =
          ((fs.put p ⟨[], fs.perm_default⟩).put p ⟨buf, fs.perm_default⟩).permissions p
            perms_owner_group_all ∧
          (f_write_from_offset fs s p o).ret = .ok (o, e)) := by
  unfold f_write_from_offset
  dsimp only
  split
  · exact Or.inl ⟨rfl, _, rfl⟩
  · split
    · next hex => exact Or.inr (Or.inl ⟨hex, rfl, _, rfl⟩)
    · next hex =>
      have hex : fs.exists p = false := by simpa using hex
      split
      · exact Or.inl ⟨rfl, _, rfl⟩
      · split
        · exact Or.inl ⟨rfl, _, rfl⟩
        · split
          · exact Or.inl ⟨rfl, _, rfl⟩
          · next hop =>
            split
            · exact Or.inr (Or.inr (Or.inl ⟨hex, rfl, _, rfl⟩))
            · exact Or.inr (Or.inr (Or.inr ⟨hex, by simpa using hop, _, _, rfl, rfl⟩))

end FlatImage
namespace FlatImage

/-- A step never changes a file that is already there. -/
theorem f_write_from_offset_node (fs : FileSys) (s : IfStream) (p q : Path) (o : Nat)
    (n : FileNode) (hq : fs.node q = some n) :
    (f_write_from_offset fs s p o).fs.node q = some n := by
  have hne : fs.exists p = false → q ≠ p := by
    intro hex heq
    rw [heq, FileSys.node_none_of_exists_false hex] at hq
    simp at hq
  rcases f_write_from_offset_cases fs s p o with
    ⟨h, _⟩ | ⟨_, h, _⟩ | ⟨hex, h, _⟩ | ⟨hex, _, buf, e, h, _⟩
  · rw [h]; exact hq
  · rw [h]; exact hq
  · rw [h, FileSys.node_put, if_neg (hne hex)]; exact hq
  · rw [h, FileSys.node_permissions_ne _ _ _ _ (hne hex), FileSys.node_put, if_neg (hne hex),
      FileSys.node_put, if_neg (hne hex)]
    exact hq

theorem f_write_from_offset_exists_mono (fs : FileSys) (s : IfStream) (p q : Path) (o : Nat)
    (hq : fs.exists q = true) : (f_write_from_offset fs s p o).fs.exists q = true := by
  unfold FileSys.exists at hq ⊢
  cases hn : fs.node q with
  | none => simp [hn] at hq
  | some n => simp [f_write_from_offset_node fs s p q o n hn]

/-- The answers of the operating system are not changed by a step. -/
theorem f_write_from_offset_oracles (fs : FileSys) (s : IfStream) (p : Path) (o : Nat) :
    (f_write_from_offset fs s p o).fs.can_open = fs.can_open ∧
    (f_write_from_offset fs s p o).fs.can_write = fs.can_write := by
  rcases f_write_from_offset_cases fs s p o with
    ⟨h, _⟩ | ⟨_, h, _⟩ | ⟨_, h, _⟩ | ⟨_, _, buf, e, h, _⟩
  · rw [h]; exact ⟨rfl, rfl⟩
  · rw [h]; exact ⟨rfl, rfl⟩
  · rw [h]; exact ⟨rfl, rfl⟩
  · rw [h]
    have := FileSys.permissions_oracles
      ((fs.put p ⟨[], fs.perm_default⟩).put p ⟨buf, fs.perm_default⟩) p perms_owner_group_all
    exact ⟨this.1, this.2.1⟩

/-- After a step that returns, the destination exists. -/
theorem f_write_from_offset_ok_exists (fs : FileSys) (s : IfStream) (p : Path) (o : Nat)
    (x : Nat × Nat) (hok : (f_write_from_offset fs s p o).ret = .ok x) :
    (f_write_from_offset fs s p o).fs.exists p = true := by
  rcases f_write_from_offset_cases fs s p o with
    ⟨_, m, hm⟩ | ⟨hex, h, _⟩ | ⟨_, _, m, hm⟩ | ⟨_, _, buf, e, h, _⟩
  · rw [hm] at hok; cases hok
  · rw [h]; exact hex
  · rw [hm] at hok; cases hok
  · rw [h, FileSys.exists_permissions, FileSys.exists_put]; simp

/-- A step whose destination exists leaves the file system as it is. -/
theorem f_write_from_offset_exists_fs (fs : FileSys) (file_binary : IfStream) (path_file : Path)
    (o : Nat) (hex : fs.exists path_file = true) :
    (f_write_from_offset fs file_binary path_file o).fs = fs := by
  rcases f_write_from_offset_cases fs file_binary path_file o with
    ⟨h, _⟩ | ⟨_, h, _⟩ | ⟨hex2, _⟩ | ⟨hex2, _⟩
  · exact h
  · exact h
  · rw [hex] at hex2; cases hex2
  · rw [hex] at hex2; cases hex2

/-- No step changes the bytes the stream reads from. -/
theorem f_write_from_offset_data (fs : FileSys) (file_binary : IfStream) (path_file : Path)
    (o : Nat) :
    (f_write_from_offset fs file_binary path_file o).file_binary.data = file_binary.data := by
  unfold f_write_from_offset
  dsimp only
  split
  · next s1 h1 =>
    rw [IfStream.read_data_of_eq h1, IfStream.seekg_data]
  · next s1 raw h1 =>
    have hd1 : s1.data = file_binary.data := by
      rw [IfStream.read_data_of_eq h1, IfStream.seekg_data]
    split
    · simp [IfStream.seekg_data, hd1]
    · split
      · exact hd1
      · split
        · next s2 h2 => simp [IfStream.read_data_of_eq h2, hd1]
        · next s2 buf h2 =>
          have hd2 : s2.data = file_binary.data := by
            rw [IfStream.read_data_of_eq h2, hd1]
          split
          · exact hd2
          · split <;> exact hd2

/-- Full description of a successful step. -/
theorem f_write_from_offset_ok (fs : FileSys) (file_binary : IfStream) (path_file : Path)
    (o L : Nat) (hgood : file_binary.failbit = false)
    (hsize : file_binary.data.length < 2 ^ 63)
    (hL : le_u64 ((file_binary.data.drop o).take 8) = L)
    (hfit : o + 8 + L ≤ file_binary.data.length)
    (hout : fs.exists path_file = false →
      fs.can_open path_file = true ∧ fs.can_write path_file = true) :
    (f_write_from_offset fs file_binary path_file o).ret = .ok (o, o + 8 + L) ∧
    (f_write_from_offset fs file_binary path_file o).file_binary
      = ⟨file_binary.data, o + 8 + L, false⟩ := by
  have hs := IfStream.seekg_ok file_binary o hgood (by omega)
  have hr := IfStream.read_ok ⟨file_binary.data, o, false⟩ 8 rfl (by simp; omega)
  unfold f_write_from_offset
  simp only [hs, hr, hL]
  cases hex : fs.exists path_file
  · obtain ⟨hopen, hwrite⟩ := hout hex
    have hr2 := IfStream.read_ok ⟨file_binary.data, o + 8, false⟩ L rfl (by simp; omega)
    have ht := IfStream.tellg_ok ⟨file_binary.data, o + 8 + L, false⟩ rfl (by simp; omega)
    rw [if_neg (by simp), if_neg (by omega)]
    simp only [hr2]
    rw [if_neg (by simp [hopen]), if_neg (by simp [FileSys.put, hwrite])]
    simp only [ht]
    simp
  · have hm : (o + L + 8) % 2 ^ 64 = o + 8 + L := by
      rw [Nat.mod_eq_of_lt (by omega)]; omega
    have hs2 := IfStream.seekg_ok ⟨file_binary.data, o + 8, false⟩ (o + 8 + L) rfl (by omega)
    have ht := IfStream.tellg_ok ⟨file_binary.data, o + 8 + L, false⟩ rfl (by simp; omega)
    rw [if_pos rfl]
    simp only [hm, hs2, ht]
    simp

/-- Fewer than eight bytes at the offset: the length cannot be read. -/
theorem f_write_from_offset_short_size (fs : FileSys) (file_binary : IfStream) (path_file : Path)
    (o : Nat) (h : file_binary.data.length < o + 8) :
    (f_write_from_offset fs file_binary path_file o).ret
      = .error "Could not read binary size" := by
  have hr := IfStream.read_short file_binary o 8 h
  unfold f_write_from_offset
  dsimp only
  split
  · rfl
  · next s1 raw h1 => rw [h1] at hr; simp at hr

/-- The destination is missing and the payload runs past the end of the file. -/
theorem f_write_from_offset_short_payload (fs : FileSys) (file_binary : IfStream)
    (path_file : Path) (o : Nat) (hex : fs.exists path_file = false)
    (h : file_binary.data.length < o + 8 + le_u64 ((file_binary.data.drop o).take 8)) :
    ∃ msg, (f_write_from_offset fs file_binary path_file o).ret = .error msg := by
  unfold f_write_from_offset
  dsimp only
  split
  · exact ⟨_, rfl⟩
  · next s1 raw h1 =>
    obtain ⟨_, _, _, hs1, hraw⟩ := IfStream.seekg_read_some h1
    rw [if_neg (by simp [hex])]
    split
    · exact ⟨_, rfl⟩
    · split
      · exact ⟨_, rfl⟩
      · next s2 buf h2 =>
        obtain ⟨_, hle, _, _⟩ := IfStream.read_some h2
        rw [hs1, hraw] at hle
        simp only at hle
        omega

/-- A step that returns has read its eight length bytes inside the file. -/
theorem f_write_from_offset_ok_bound (fs : FileSys) (file_binary : IfStream)
    (path_file : Path) (o : Nat) (x : Nat × Nat)
    (hok : (f_write_from_offset fs file_binary path_file o).ret = .ok x) :
    o + 8 ≤ file_binary.data.length := by
  by_contra hlt
  rw [f_write_from_offset_short_size fs file_binary path_file o (by omega)] at hok
  cases hok

end FlatImage
namespace FlatImage

/-! ## The walk over the payloads -/

theorem payload_walk_cons_error (fs : FileSys) (s : IfStream) (p : Path) (ps : List Path)
    (b e : Nat) (m : String) (h : (f_write_from_offset fs s p e).ret = .error m) :
    payload_walk fs s (p :: ps) b e =
      ⟨(f_write_from_offset fs s p e).fs, (f_write_from_offset fs s p e).file_binary,
        .error m⟩ := by
  simp only [payload_walk, h]

theorem payload_walk_cons_ok (fs : FileSys) (s : IfStream) (p : Path) (ps : List Path)
    (b e b1 e1 : Nat) (h : (f_write_from_offset fs s p e).ret = .ok (b1, e1)) :
    payload_walk fs s (p :: ps) b e =
      payload_walk (f_write_from_offset fs s p e).fs
        (f_write_from_offset fs s p e).file_binary ps b1 e1 := by
  simp only [payload_walk, h]

/-- The walk never changes a file that is already there. -/
theorem payload_walk_node (ps : List Path) (fs : FileSys) (s : IfStream) (b e : Nat)
    (q : Path) (n : FileNode) (hq : fs.node q = some n) :
    (payload_walk fs s ps b e).fs.node q = some n := by
  induction ps generalizing fs s b e with
  | nil => exact hq
  | cons p ps ih =>
    have hstep := f_write_from_offset_node fs s p q e n hq
    cases hr : (f_write_from_offset fs s p e).ret with
    | error m => rw [payload_walk_cons_error fs s p ps b e m hr]; exact hstep
    | ok x =>
      obtain ⟨b1, e1⟩ := x
      rw [payload_walk_cons_ok fs s p ps b e b1 e1 hr]
      exact ih _ _ _ _ hstep

theorem payload_walk_exists_mono (ps : List Path) (fs : FileSys) (s : IfStream) (b e : Nat)
    (q : Path) (hq : fs.exists q = true) : (payload_walk fs s ps b e).fs.exists q = true := by
  unfold FileSys.exists at hq ⊢
  cases hn : fs.node q with
  | none => simp [hn] at hq
  | some n => simp [payload_walk_node ps fs s b e q n hn]

/-- When every destination exists the walk writes nothing, whether it returns or raises. -/
theorem payload_walk_all_exist (ps : List Path) (fs : FileSys) (s : IfStream) (b e : Nat)
    (hall : ∀ p ∈ ps, fs.exists p = true) : (payload_walk fs s ps b e).fs = fs := by
  induction ps generalizing s b e with
  | nil => rfl
  | cons p ps ih =>
    have hfs := f_write_from_offset_exists_fs fs s p e (hall p (List.mem_cons_self _ _))
    cases hr : (f_write_from_offset fs s p e).ret with
    | error m => rw [payload_walk_cons_error fs s p ps b e m hr]; exact hfs
    | ok x =>
      obtain ⟨b1, e1⟩ := x
      rw [payload_walk_cons_ok fs s p ps b e b1 e1 hr, hfs]
      exact ih _ _ _ (fun q hq => hall q (List.mem_cons_of_mem _ hq))

/-- After a walk that returns, every destination exists. -/
theorem payload_walk_ok_exists (ps : List Path) (fs : FileSys) (s : IfStream) (b e : Nat)
    (x : Nat × Nat) (hok : (payload_walk fs s ps b e).ret = .ok x) :
    ∀ p ∈ ps, (payload_walk fs s ps b e).fs.exists p = true := by
  induction ps generalizing fs s b e with
  | nil => intro p hp; cases hp
  | cons p ps ih =>
    cases hr : (f_write_from_offset fs s p e).ret with
    | error m =>
      rw [payload_walk_cons_error fs s p ps b e m hr] at hok
      cases hok
    | ok y =>
      obtain ⟨b1, e1⟩ := y
      rw [payload_walk_cons_ok fs s p ps b e b1 e1 hr] at hok ⊢
      intro q hq
      rcases List.mem_cons.mp hq with rfl | hq
      · exact payload_walk_exists_mono ps _ _ _ _ _
          (f_write_from_offset_ok_exists fs s q e _ hr)
      · exact ih _ _ _ _ hok q hq

/-- A walk over at least one payload that returns has read the first length inside the
file. -/
theorem payload_walk_ok_bound (p : Path) (ps : List Path) (fs : FileSys) (s : IfStream)
    (b e : Nat) (x : Nat × Nat) (hok : (payload_walk fs s (p :: ps) b e).ret = .ok x) :
    e + 8 ≤ s.data.length := by
  cases hr : (f_write_from_offset fs s p e).ret with
  | error m =>
    rw [payload_walk_cons_error fs s p ps b e m hr] at hok
    cases hok
  | ok y => exact f_write_from_offset_ok_bound fs s p e y hr

/-- The walk over a run of well-formed segments: it returns, and its final `offset_end` is
the first byte after the segments. -/
theorem payload_walk_segments (ps : List Path) (qs : List (List Byte)) (fs : FileSys)
    (s : IfStream) (pre post : List Byte) (b : Nat)
    (hlen : ps.length = qs.length) (hgood : s.failbit = false)
    (hdata : s.data = pre ++ (qs.map payload_segment).flatten ++ post)
    (hsize : s.data.length < 2 ^ 63)
    (hout : ∀ p ∈ ps, fs.exists p = true ∨ (fs.can_open p = true ∧ fs.can_write p = true)) :
    ∃ b1, (payload_walk fs s ps b pre.length).ret
      = .ok (b1, pre.length + ((qs.map payload_segment).flatten).length) := by
  induction ps generalizing qs fs s pre b with
  | nil =>
    cases qs with
    | nil => exact ⟨b, by simp [payload_walk]⟩
    | cons q qs => simp at hlen
  | cons p ps ih =>
    cases qs with
    | nil => simp at hlen
    | cons q qs =>
      have hlen2 : ps.length = qs.length := by simpa using hlen
      have hdata2 : s.data = (pre ++ payload_segment q) ++
          (qs.map payload_segment).flatten ++ post := by
        rw [hdata]; simp [List.append_assoc]
      have hseglen : (payload_segment q).length = 8 + q.length := by
        simp [payload_segment, le_bytes_length]
      have hq : q.length < 256 ^ 8 := by
        have : s.data.length ≥ q.length := by
          rw [hdata2]; simp [hseglen]; omega
        have h2 : (2:Nat) ^ 63 < 256 ^ 8 := by norm_num
        omega
      have hL : le_u64 ((s.data.drop pre.length).take 8) = q.length := by
        rw [hdata]
        simp only [List.map_cons, List.flatten_cons, List.append_assoc,
          List.drop_left, payload_segment]
        rw [List.take_left' (le_bytes_length 8 _)]
        exact le_u64_le_bytes 8 _ hq
      have hfit : pre.length + 8 + q.length ≤ s.data.length := by
        rw [hdata2]; simp [hseglen]; omega
      have hout1 : fs.exists p = false → fs.can_open p = true ∧ fs.can_write p = true := by
        intro hex
        rcases hout p (List.mem_cons_self _ _) with h | h
        · rw [hex] at h; cases h
        · exact h
      obtain ⟨hret, hstream⟩ := f_write_from_offset_ok fs s p pre.length q.length hgood hsize
        hL hfit hout1
      rw [payload_walk_cons_ok fs s p ps b pre.length _ _ hret, hstream]
      have hor := f_write_from_offset_oracles fs s p pre.length
      have hout2 : ∀ r ∈ ps, (f_write_from_offset fs s p pre.length).fs.exists r = true ∨
          ((f_write_from_offset fs s p pre.length).fs.can_open r = true ∧
           (f_write_from_offset fs s p pre.length).fs.can_write r = true) := by
        intro r hr
        rcases hout r (List.mem_cons_of_mem _ hr) with h | h
        · exact Or.inl (f_write_from_offset_exists_mono fs s p r _ h)
        · rw [hor.1, hor.2]; exact Or.inr h
      have := ih qs (f_write_from_offset fs s p pre.length).fs
        ⟨s.data, pre.length + 8 + q.length, false⟩ (pre ++ payload_segment q) pre.length
        hlen2 rfl hdata2 hsize hout2
      obtain ⟨b1, hb1⟩ := this
      refine ⟨b1, ?_⟩
      have e1 : (pre ++ payload_segment q).length = pre.length + 8 + q.length := by
        simp [hseglen]; omega
      rw [e1] at hb1
      rw [hb1]
      simp [hseglen]
      omega

end FlatImage
namespace FlatImage

/-! ## The header step and the whole extraction -/

theorem FileSys.put_oracles (fs : FileSys) (p : Path) (n : FileNode) :
    (fs.put p n).can_open = fs.can_open ∧ (fs.put p n).can_write = fs.can_write ∧
    (fs.put p n).perm_default = fs.perm_default := ⟨rfl, rfl, rfl⟩

theorem FileSys.exists_put_self (fs : FileSys) (p : Path) (n : FileNode) :
    (fs.put p n).exists p = true := by
  simp [FileSys.exists_put]

/-- The header step when the destination is already there: nothing is copied. -/
theorem f_write_from_header_cached (skip : List Byte → Nat → Nat) (fs : FileSys)
    (s : IfStream) (p : Path) (o : Nat) (hex : fs.exists p = true) :
    f_write_from_header skip fs s p o =
      ⟨fs.permissions p perms_owner_group_all, s, .ok (o, (skip s.data o + o) % 2 ^ 64)⟩ := by
  unfold f_write_from_header
  simp only [hex, if_true]

/-- The header step when the destination is missing and can be created: the span
`[o, o + skip)` of the image is copied. -/
theorem f_write_from_header_fresh (skip : List Byte → Nat → Nat) (fs : FileSys)
    (s : IfStream) (p : Path) (o : Nat) (hex : fs.exists p = false)
    (hopen : fs.can_open p = true) (hwrite : fs.can_write p = true) :
    f_write_from_header skip fs s p o =
      ⟨((fs.put p ⟨[], fs.perm_default⟩).put p
          ⟨(s.data.drop o).take ((skip s.data o + o) % 2 ^ 64 - o), fs.perm_default⟩).permissions
          p perms_owner_group_all, s, .ok (o, (skip s.data o + o) % 2 ^ 64)⟩ := by
  unfold f_write_from_header copy_binary
  simp only [hex, hopen, (FileSys.put_oracles _ _ _).2.1, hwrite, Bool.false_eq_true,
    Bool.true_eq_false, if_false, FileSys.exists_put_self, if_true,
    (FileSys.put_oracles _ _ _).2.2]

theorem f_write_from_header_noopen (skip : List Byte → Nat → Nat) (fs : FileSys)
    (s : IfStream) (p : Path) (o : Nat) (hex : fs.exists p = false)
    (hopen : fs.can_open p = false) :
    f_write_from_header skip fs s p o = ⟨fs, s, .error "Failed to open out file"⟩ := by
  unfold f_write_from_header copy_binary
  simp only [hex, hopen, Bool.false_eq_true, if_false, if_true]

theorem f_write_from_header_nowrite (skip : List Byte → Nat → Nat) (fs : FileSys)
    (s : IfStream) (p : Path) (o : Nat) (hex : fs.exists p = false)
    (hopen : fs.can_open p = true) (hwrite : fs.can_write p = false) :
    f_write_from_header skip fs s p o =
      ⟨fs.put p ⟨[], fs.perm_default⟩, s, .error "Failed to write out file"⟩ := by
  unfold f_write_from_header copy_binary
  simp only [hex, hopen, (FileSys.put_oracles _ _ _).2.1, hwrite, Bool.false_eq_true,
    Bool.true_eq_false, if_false, if_true]

/-- The header step never touches the stream. -/
theorem f_write_from_header_stream (skip : List Byte → Nat → Nat) (fs : FileSys)
    (s : IfStream) (p : Path) (o : Nat) :
    (f_write_from_header skip fs s p o).file_binary = s := by
  cases hex : fs.exists p
  · cases hopen : fs.can_open p
    · rw [f_write_from_header_noopen skip fs s p o hex hopen]
    · cases hwrite : fs.can_write p
      · rw [f_write_from_header_nowrite skip fs s p o hex hopen hwrite]
      · rw [f_write_from_header_fresh skip fs s p o hex hopen hwrite]
  · rw [f_write_from_header_cached skip fs s p o hex]

/-- A header step that returns on a missing destination has written the span. -/
theorem f_write_from_header_ok_fresh (skip : List Byte → Nat → Nat) (fs : FileSys)
    (s : IfStream) (p : Path) (o : Nat) (x : Nat × Nat) (hex : fs.exists p = false)
    (hok : (f_write_from_header skip fs s p o).ret = .ok x) :
    x = (o, (skip s.data o + o) % 2 ^ 64) ∧
    (f_write_from_header skip fs s p o).fs.node p =
      some ⟨(s.data.drop o).take ((skip s.data o + o) % 2 ^ 64 - o), perms_owner_group_all⟩ := by
  cases hopen : fs.can_open p
  · rw [f_write_from_header_noopen skip fs s p o hex hopen] at hok; cases hok
  · cases hwrite : fs.can_write p
    · rw [f_write_from_header_nowrite skip fs s p o hex hopen hwrite] at hok; cases hok
    · rw [f_write_from_header_fresh skip fs s p o hex hopen hwrite] at hok ⊢
      refine ⟨by cases hok; rfl, ?_⟩
      simp [FileSys.permissions, FileSys.put]

/-- The header step keeps existing files in existence and the answers of the operating
system. -/
theorem f_write_from_header_frame (skip : List Byte → Nat → Nat) (fs : FileSys)
    (s : IfStream) (p : Path) (o : Nat) :
    (∀ q, fs.exists q = true → (f_write_from_header skip fs s p o).fs.exists q = true) ∧
    (f_write_from_header skip fs s p o).fs.can_open = fs.can_open ∧
    (f_write_from_header skip fs s p o).fs.can_write = fs.can_write := by
  cases hex : fs.exists p
  · cases hopen : fs.can_open p
    · rw [f_write_from_header_noopen skip fs s p o hex hopen]
      exact ⟨fun q hq => hq, rfl, rfl⟩
    · cases hwrite : fs.can_write p
      · rw [f_write_from_header_nowrite skip fs s p o hex hopen hwrite]
        refine ⟨fun q hq => ?_, rfl, rfl⟩
        simp [FileSys.exists_put, hq]
      · rw [f_write_from_header_fresh skip fs s p o hex hopen hwrite]
        refine ⟨fun q hq => ?_, (FileSys.permissions_oracles _ p _).1,
          (FileSys.permissions_oracles _ p _).2.1⟩
        simp [FileSys.exists_permissions, FileSys.exists_put, hq]
  · rw [f_write_from_header_cached skip fs s p o hex]
    refine ⟨fun q hq => ?_, (FileSys.permissions_oracles _ p _).1,
      (FileSys.permissions_oracles _ p _).2.1⟩
    rw [FileSys.exists_permissions]; exact hq

/-- The header step returns whenever its destination exists or can be created. -/
theorem f_write_from_header_ok (skip : List Byte → Nat → Nat) (fs : FileSys)
    (s : IfStream) (p : Path) (o : Nat)
    (hout : fs.exists p = true ∨ (fs.can_open p = true ∧ fs.can_write p = true)) :
    (f_write_from_header skip fs s p o).ret = .ok (o, (skip s.data o + o) % 2 ^ 64) := by
  cases hex : fs.exists p
  · rcases hout with h | ⟨h1, h2⟩
    · rw [hex] at h; cases h
    · rw [f_write_from_header_fresh skip fs s p o hex h1 h2]
  · rw [f_write_from_header_cached skip fs s p o hex]

/-- In `relocate` the payload walk starts at the offset returned by the header step. -/
theorem relocate_write_binaries_of_header (skip : List Byte → Nat → Nat) (fs : FileSys)
    (self : List Byte) (di ab bb : Path) (b e : Nat)
    (h : (f_write_from_header skip fs (IfStream.open self) (path_join di "fim_boot") 0).ret
      = .ok (b, e)) :
    relocate_write_binaries skip fs self di ab bb =
      payload_walk
        (f_write_from_header skip fs (IfStream.open self) (path_join di "fim_boot") 0).fs
        (IfStream.open self) (payload_paths ab bb) b e := by
  unfold relocate_write_binaries
  simp only [h, f_write_from_header_stream]

/-- A failing header step ends the extraction. -/
theorem relocate_write_binaries_of_header_error (skip : List Byte → Nat → Nat) (fs : FileSys)
    (self : List Byte) (di ab bb : Path) (m : String)
    (h : (f_write_from_header skip fs (IfStream.open self) (path_join di "fim_boot") 0).ret
      = .error m) :
    (relocate_write_binaries skip fs self di ab bb).ret = .error m := by
  unfold relocate_write_binaries
  simp only [h]

theorem setenv_overwrite (env : Env) (name value : String) (h1 : name ≠ "")
    (h2 : '=' ∉ name.data) : setenv env name value true name = some value := by
  unfold setenv
  simp [h1, h2]

end FlatImage
namespace FlatImage

/-! ## Running the walk again over its own cache -/

/-- A step that returned returns the same pair, and leaves the same stream, over any file
system in which its destination exists. -/
theorem f_write_from_offset_rerun (fs fs2 : FileSys) (s : IfStream) (p : Path) (o : Nat)
    (x : Nat × Nat) (hsize : s.data.length < 2 ^ 63)
    (hok : (f_write_from_offset fs s p o).ret = .ok x) (hex2 : fs2.exists p = true) :
    (f_write_from_offset fs2 s p o).ret = .ok x ∧
    (f_write_from_offset fs2 s p o).file_binary = (f_write_from_offset fs s p o).file_binary := by
  unfold f_write_from_offset at hok ⊢
  dsimp only at hok ⊢
  revert hok
  rcases hr : (s.seekg o).read 8 with ⟨s1, _ | raw⟩
  · intro hok; cases hok
  · dsimp only
    intro hok
    rw [if_pos hex2]
    by_cases hex : fs.exists p = true
    · rw [if_pos hex] at hok ⊢
      exact ⟨hok, rfl⟩
    · rw [if_neg hex] at hok ⊢
      obtain ⟨_, _, _, hs1, _⟩ := IfStream.seekg_read_some hr
      by_cases hbig : 2 ^ 63 ≤ le_u64 raw
      · rw [if_pos hbig] at hok; cases hok
      · rw [if_neg hbig] at hok ⊢
        revert hok
        rcases hr2 : s1.read (le_u64 raw) with ⟨s2, _ | buf⟩
        · intro hok; cases hok
        · dsimp only
          intro hok
          obtain ⟨_, hle, hs2, _⟩ := IfStream.read_some hr2
          have hseek : s1.seekg ((o + le_u64 raw + 8) % 2 ^ 64) = s2 := by
            rw [hs1] at hle hs2 ⊢
            simp only at hle hs2
            have hm : (o + le_u64 raw + 8) % 2 ^ 64 = o + 8 + le_u64 raw := by
              rw [Nat.mod_eq_of_lt (by omega)]; omega
            rw [hm, IfStream.seekg_ok _ _ rfl (by omega), hs2]
          rw [hseek]
          by_cases hopen : fs.can_open p = false
          · rw [if_pos hopen] at hok; cases hok
          · rw [if_neg hopen] at hok ⊢
            by_cases hwrite : (fs.put p ⟨[], fs.perm_default⟩).can_write p = false ∧
                (fs.put p ⟨[], fs.perm_default⟩).write_through ≤ le_u64 raw
            · rw [if_pos hwrite] at hok; cases hok
            · rw [if_neg hwrite] at hok ⊢
              exact ⟨hok, rfl⟩

/-- A walk that returned returns the same pair over any file system in which all its
destinations exist. -/
theorem payload_walk_rerun (ps : List Path) (fs fs2 : FileSys) (s : IfStream) (b e : Nat)
    (x : Nat × Nat) (hsize : s.data.length < 2 ^ 63)
    (hok : (payload_walk fs s ps b e).ret = .ok x) (hall : ∀ p ∈ ps, fs2.exists p = true) :
    (payload_walk fs2 s ps b e).ret = .ok x := by
  induction ps generalizing fs s b e with
  | nil => exact hok
  | cons p ps ih =>
    cases hr : (f_write_from_offset fs s p e).ret with
    | error m =>
      rw [payload_walk_cons_error fs s p ps b e m hr] at hok
      cases hok
    | ok y =>
      obtain ⟨b1, e1⟩ := y
      rw [payload_walk_cons_ok fs s p ps b e b1 e1 hr] at hok
      have hp := hall p (List.mem_cons_self _ _)
      obtain ⟨h1, h2⟩ := f_write_from_offset_rerun fs fs2 s p e (b1, e1) hsize hr hp
      rw [payload_walk_cons_ok fs2 s p ps b e b1 e1 h1, h2,
        f_write_from_offset_exists_fs fs2 s p e hp]
      refine ih _ _ _ _ ?_ hok (fun q hq => hall q (List.mem_cons_of_mem _ hq))
      rw [f_write_from_offset_data]; exact hsize


/-! ## A refused write of a small payload -/

/-- A payload shorter than the write-through size only fills the buffer of the output
stream: when the operating system refuses the bytes, the step still returns the span and
leaves the destination empty. -/
theorem f_write_from_offset_buffered (fs : FileSys) (file_binary : IfStream)
    (path_file : Path) (o L : Nat) (hgood : file_binary.failbit = false)
    (hsize : file_binary.data.length < 2 ^ 63)
    (hL : le_u64 ((file_binary.data.drop o).take 8) = L)
    (hfit : o + 8 + L ≤ file_binary.data.length)
    (hex : fs.exists path_file = false) (hopen : fs.can_open path_file = true)
    (hwrite : fs.can_write path_file = false) (hsmall : L < fs.write_through) :
    (f_write_from_offset fs file_binary path_file o).ret = .ok (o, o + 8 + L) ∧
    (f_write_from_offset fs file_binary path_file o).fs.node path_file
      = some ⟨[], perms_owner_group_all⟩ := by
  have hs := IfStream.seekg_ok file_binary o hgood (by omega)
  have hr := IfStream.read_ok ⟨file_binary.data, o, false⟩ 8 rfl (by simp; omega)
  have hr2 := IfStream.read_ok ⟨file_binary.data, o + 8, false⟩ L rfl (by simp; omega)
  have ht := IfStream.tellg_ok ⟨file_binary.data, o + 8 + L, false⟩ rfl (by simp; omega)
  unfold f_write_from_offset
  simp only [hs, hr, hL]
  rw [if_neg (by simp [hex]), if_neg (by omega)]
  simp only [hr2]
  rw [if_neg (by simp [hopen]), if_neg (by simp [FileSys.put]; omega)]
  simp only [ht]
  simp [FileSys.put, FileSys.permissions, hwrite]

/-- The segment `demo_segment` extracted where the write is refused when the stream is
closed: the span is returned and `/b/bash` is an empty file. -/
theorem f_write_from_offset_buffered_demo :
    (f_write_from_offset fs_full (IfStream.open demo_segment) "/b/bash" 0).ret = .ok (0, 11) ∧
    (f_write_from_offset fs_full (IfStream.open demo_segment) "/b/bash" 0).fs.node "/b/bash"
      = some ⟨[], perms_owner_group_all⟩ := by
  decide

/-- A payload of at least the write-through size is handed to the operating system by
`of.write`, and a refusal raises. -/
theorem f_write_from_offset_refused (fs : FileSys) (file_binary : IfStream)
    (path_file : Path) (o L : Nat) (hgood : file_binary.failbit = false)
    (hsize : file_binary.data.length < 2 ^ 63)
    (hL : le_u64 ((file_binary.data.drop o).take 8) = L)
    (hfit : o + 8 + L ≤ file_binary.data.length)
    (hex : fs.exists path_file = false) (hopen : fs.can_open path_file = true)
    (hwrite : fs.can_write path_file = false) (hlarge : fs.write_through ≤ L) :
    (f_write_from_offset fs file_binary path_file o).ret
      = .error "Could not write binary file" := by
  have hs := IfStream.seekg_ok file_binary o hgood (by omega)
  have hr := IfStream.read_ok ⟨file_binary.data, o, false⟩ 8 rfl (by simp; omega)
  have hr2 := IfStream.read_ok ⟨file_binary.data, o + 8, false⟩ L rfl (by simp; omega)
  unfold f_write_from_offset
  simp only [hs, hr, hL]
  rw [if_neg (by simp [hex]), if_neg (by omega)]
  simp only [hr2]
  rw [if_neg (by simp [hopen]), if_pos (by simp [FileSys.put, hwrite]; omega)]

end FlatImage
namespace FlatImage

/-! ## Claims about the payload walk -/

/-- C1 (as amended): on a good stream over a self-image shorter than `2 ^ 63` bytes, if the
eight bytes at `[o, o + 8)` decode as the little-endian length `L` and `o + 8 + L` is at most
the file size, then the length-prefixed step returns the span `(o, o + 8 + L)`, both when
the destination exists and when it is missing and can be opened and written. -/
theorem f_write_from_offset_span (fs : FileSys) (file_binary : IfStream) (path_file : Path)
    (o L : Nat) (hgood : file_binary.failbit = false)
    (hsize : file_binary.data.length < 2 ^ 63)
    (hL : le_u64 ((file_binary.data.drop o).take 8) = L)
    (hfit : o + 8 + L ≤ file_binary.data.length)
    (hdest : fs.exists path_file = true ∨
      (fs.can_open path_file = true ∧ fs.can_write path_file = true)) :
    (f_write_from_offset fs file_binary path_file o).ret = .ok (o, o + 8 + L) := by
  refine (f_write_from_offset_ok fs file_binary path_file o L hgood hsize hL hfit ?_).1
  intro hex
  rcases hdest with h | h
  · rw [hex] at h; cases h
  · exact h

/-- Witness for C1: the segment `demo_segment` at offset 0, once with the destination
missing and creatable, once with the destination present. -/
theorem f_write_from_offset_span_witness :
    (f_write_from_offset fs_empty (IfStream.open demo_segment) "/b/bash" 0).ret = .ok (0, 0 + 8 + 3)
    ∧ (f_write_from_offset fs_cached (IfStream.open demo_segment) "/b/bash" 0).ret
      = .ok (0, 0 + 8 + 3) :=
  ⟨f_write_from_offset_span fs_empty (IfStream.open demo_segment) "/b/bash" 0 3 rfl
      (by decide) (by decide) (by decide) (Or.inr ⟨rfl, rfl⟩),
    f_write_from_offset_span fs_cached (IfStream.open demo_segment) "/b/bash" 0 3 rfl
      (by decide) (by decide) (by decide) (Or.inl (by decide))⟩

/-- Counterexample to C1 as stated: the eight bytes at offset 0 of `demo_segment` decode
as 3 and `0 + 8 + 3` is the file size, the destination does not exist, and the step raises
because the output file cannot be opened. -/
theorem f_write_from_offset_span_counterexample :
    le_u64 ((demo_segment.drop 0).take 8) = 3 ∧ 0 + 8 + 3 ≤ demo_segment.length ∧
    fs_readonly.exists "/b/bash" = false ∧
    (f_write_from_offset fs_readonly (IfStream.open demo_segment) "/b/bash" 0).ret
      = .error "Could not open output file" := by
  decide

/-- C2 (as amended): in `relocate`, with `P = skip_elf_header(self, 0)`, the header step is
called with offset 0: when `fim_boot` is missing and can be created, the bytes copied to it
are the span `[0, P)` of the self-image, the step returns `(0, P)`, and the walk over the
length-prefixed payloads, whose first destination is `bash`, starts at offset `P`. -/
theorem relocate_fim_boot_span (skip : List Byte → Nat → Nat) (fs : FileSys)
    (self : List Byte) (di ab bb : Path) (hu64 : skip self 0 < 2 ^ 64)
    (hfresh : fs.exists (path_join di "fim_boot") = false)
    (hopen : fs.can_open (path_join di "fim_boot") = true)
    (hwrite : fs.can_write (path_join di "fim_boot") = true) :
    (f_write_from_header skip fs (IfStream.open self) (path_join di "fim_boot") 0).ret
      = .ok (0, skip self 0) ∧
    ((f_write_from_header skip fs (IfStream.open self) (path_join di "fim_boot") 0).fs.node
        (path_join di "fim_boot")).map (fun n => n.content) = some (self.take (skip self 0)) ∧
    relocate_write_binaries skip fs self di ab bb =
      payload_walk
        (f_write_from_header skip fs (IfStream.open self) (path_join di "fim_boot") 0).fs
        (IfStream.open self) (payload_paths ab bb) 0 (skip self 0) ∧
    (payload_paths ab bb).head? = some (path_join ab "bash") := by
  have hP : (skip (IfStream.open self).data 0 + 0) % 2 ^ 64 = skip self 0 := by
    show (skip self 0 + 0) % 2 ^ 64 = skip self 0
    rw [Nat.add_zero, Nat.mod_eq_of_lt hu64]
  have hret := f_write_from_header_ok skip fs (IfStream.open self) (path_join di "fim_boot") 0
    (Or.inr ⟨hopen, hwrite⟩)
  rw [hP] at hret
  obtain ⟨_, hnode⟩ := f_write_from_header_ok_fresh skip fs (IfStream.open self)
    (path_join di "fim_boot") 0 (0, skip self 0) hfresh hret
  rw [hP] at hnode
  refine ⟨hret, ?_, relocate_write_binaries_of_header skip fs self di ab bb 0 _ hret, rfl⟩
  rw [hnode]
  simp [IfStream.open]

/-- Witness for C2: the image `demo_image` extracted into an empty cache. -/
theorem relocate_fim_boot_span_witness :
    (f_write_from_header demo_skip_elf_header fs_empty (IfStream.open demo_image)
        (path_join "/i" "fim_boot") 0).ret = .ok (0, demo_skip_elf_header demo_image 0) ∧
    ((f_write_from_header demo_skip_elf_header fs_empty (IfStream.open demo_image)
        (path_join "/i" "fim_boot") 0).fs.node (path_join "/i" "fim_boot")).map
        (fun n => n.content) = some (demo_image.take (demo_skip_elf_header demo_image 0)) ∧
    relocate_write_binaries demo_skip_elf_header fs_empty demo_image "/i" "/b" "/b/busybox" =
      payload_walk
        (f_write_from_header demo_skip_elf_header fs_empty (IfStream.open demo_image)
          (path_join "/i" "fim_boot") 0).fs
        (IfStream.open demo_image) (payload_paths "/b" "/b/busybox") 0
        (demo_skip_elf_header demo_image 0) ∧
    (payload_paths "/b" "/b/busybox").head? = some (path_join "/b" "bash") :=
  relocate_fim_boot_span demo_skip_elf_header fs_empty demo_image "/i" "/b" "/b/busybox"
    (by decide) rfl rfl rfl

/-- Counterexample to C2 as stated: in `demo_image_two` the leading program image ends at
`P = 4` and the program image rooted there ends at `P' = 13`; `relocate` copies the span
`[0, 4)` to `fim_boot`, which differs from the span `[4, 13)`, and starts the walk of the
length-prefixed payloads at offset 4, not at 13. -/
theorem relocate_fim_boot_span_counterexample :
    demo_skip_elf_header demo_image_two 0 = 4 ∧
    4 + demo_skip_elf_header demo_image_two 4 = 13 ∧
    ((relocate_write_binaries demo_skip_elf_header fs_empty demo_image_two "/i" "/b"
        "/b/busybox").fs.node "/i/fim_boot").map (fun n => n.content)
      = some (demo_image_two.take 4) ∧
    demo_image_two.take 4 ≠ (demo_image_two.drop 4).take (13 - 4) ∧
    relocate_write_binaries demo_skip_elf_header fs_empty demo_image_two "/i" "/b" "/b/busybox" =
      payload_walk
        (f_write_from_header demo_skip_elf_header fs_empty (IfStream.open demo_image_two)
          "/i/fim_boot" 0).fs
        (IfStream.open demo_image_two) (payload_paths "/b" "/b/busybox") 0 4 := by
  refine ⟨by decide, by decide, by decide, by decide, ?_⟩
  exact relocate_write_binaries_of_header demo_skip_elf_header fs_empty demo_image_two
    "/i" "/b" "/b/busybox" 0 4 (by decide)

end FlatImage
namespace FlatImage

/-- C3 (as amended): for a self-image made of a leading program image of length
`P = skip_elf_header(self, 0)`, then thirteen length-prefixed payloads, then the filesystem
segment, of fewer than `2 ^ 63` bytes, and when each destination exists or can be
created and written, the walk of `relocate` returns, its final `offset_end` is the first
byte of the filesystem segment, at most the file size, and `FIM_OFFSET` is its decimal
rendering. -/
theorem relocate_walk_total (skip : List Byte → Nat → Nat) (fs : FileSys) (env : Env)
    (lead : List Byte) (payloads : List (List Byte)) (fsseg : List Byte) (di ab bb : Path)
    (hcount : payloads.length = 13)
    (hlead : skip (packed_image lead payloads fsseg) 0 = lead.length)
    (hsize : (packed_image lead payloads fsseg).length < 2 ^ 63)
    (hboot : fs.exists (path_join di "fim_boot") = true ∨
      (fs.can_open (path_join di "fim_boot") = true ∧
        fs.can_write (path_join di "fim_boot") = true))
    (hout : ∀ p ∈ payload_paths ab bb,
      fs.exists p = true ∨ (fs.can_open p = true ∧ fs.can_write p = true)) :
    (relocate_extract skip fs env (packed_image lead payloads fsseg) di ab bb).ret
      = .ok (lead.length + ((payloads.map payload_segment).flatten).length) ∧
    lead.length + ((payloads.map payload_segment).flatten).length
      ≤ (packed_image lead payloads fsseg).length ∧
    (packed_image lead payloads fsseg).drop
      (lead.length + ((payloads.map payload_segment).flatten).length) = fsseg ∧
    (relocate_extract skip fs env (packed_image lead payloads fsseg) di ab bb).env "FIM_OFFSET"
      = some (toString (lead.length + ((payloads.map payload_segment).flatten).length)) := by
  have hP : (skip (IfStream.open (packed_image lead payloads fsseg)).data 0 + 0) % 2 ^ 64
      = lead.length := by
    show (skip (packed_image lead payloads fsseg) 0 + 0) % 2 ^ 64 = lead.length
    have : lead.length ≤ (packed_image lead payloads fsseg).length := by
      simp [packed_image]
    rw [hlead, Nat.add_zero, Nat.mod_eq_of_lt (by omega)]
  have hret := f_write_from_header_ok skip fs (IfStream.open (packed_image lead payloads fsseg))
    (path_join di "fim_boot") 0 hboot
  rw [hP] at hret
  have hframe := f_write_from_header_frame skip fs
    (IfStream.open (packed_image lead payloads fsseg)) (path_join di "fim_boot") 0
  have hout1 : ∀ p ∈ payload_paths ab bb,
      (f_write_from_header skip fs (IfStream.open (packed_image lead payloads fsseg))
        (path_join di "fim_boot") 0).fs.exists p = true ∨
      ((f_write_from_header skip fs (IfStream.open (packed_image lead payloads fsseg))
        (path_join di "fim_boot") 0).fs.can_open p = true ∧
       (f_write_from_header skip fs (IfStream.open (packed_image lead payloads fsseg))
        (path_join di "fim_boot") 0).fs.can_write p = true) := by
    intro p hp
    rcases hout p hp with h | h
    · exact Or.inl (hframe.1 p h)
    · rw [hframe.2.1, hframe.2.2]; exact Or.inr h
  obtain ⟨b1, hwalk⟩ := payload_walk_segments (payload_paths ab bb) payloads _
    (IfStream.open (packed_image lead payloads fsseg)) lead fsseg 0
    (by rw [hcount]; rfl) rfl rfl hsize hout1
  have hwb := relocate_write_binaries_of_header skip fs (packed_image lead payloads fsseg)
    di ab bb 0 _ hret
  have hext : relocate_extract skip fs env (packed_image lead payloads fsseg) di ab bb =
      ⟨(relocate_write_binaries skip fs (packed_image lead payloads fsseg) di ab bb).fs,
        ns_env.set env "FIM_OFFSET"
          (toString (lead.length + ((payloads.map payload_segment).flatten).length))
          ns_env.Replace.Y,
        .ok (lead.length + ((payloads.map payload_segment).flatten).length)⟩ := by
    unfold relocate_extract
    simp only [hwb, hwalk]
  rw [hext]
  refine ⟨rfl, ?_, ?_, ?_⟩
  · simp [packed_image]
  · simp only [packed_image]
    rw [← List.length_append, List.drop_left]
  · exact setenv_overwrite env "FIM_OFFSET" _ (by decide) (by decide)

/-- Witness for C3: the image `demo_image` extracted into an empty cache. -/
theorem relocate_walk_total_witness :
    (relocate_extract demo_skip_elf_header fs_empty env_empty
        (packed_image demo_lead demo_payloads demo_fsseg) "/i" "/b" "/b/busybox").ret
      = .ok (demo_lead.length + ((demo_payloads.map payload_segment).flatten).length) ∧
    demo_lead.length + ((demo_payloads.map payload_segment).flatten).length
      ≤ (packed_image demo_lead demo_payloads demo_fsseg).length ∧
    (packed_image demo_lead demo_payloads demo_fsseg).drop
      (demo_lead.length + ((demo_payloads.map payload_segment).flatten).length) = demo_fsseg ∧
    (relocate_extract demo_skip_elf_header fs_empty env_empty
        (packed_image demo_lead demo_payloads demo_fsseg) "/i" "/b" "/b/busybox").env "FIM_OFFSET"
      = some (toString (demo_lead.length + ((demo_payloads.map payload_segment).flatten).length)) :=
  relocate_walk_total demo_skip_elf_header fs_empty env_empty demo_lead demo_payloads demo_fsseg
    "/i" "/b" "/b/busybox" (by decide) (by decide) (by decide) (Or.inr ⟨rfl, rfl⟩)
    (fun _ _ => Or.inr ⟨rfl, rfl⟩)

/-- Counterexample to C3 as stated: `demo_image_two` is a leading program image, then a
second program image, then thirteen length-prefixed payloads, then the filesystem segment,
and every output can be created; the walk of `relocate` reads a length at the start of the
second program image and raises. -/
theorem relocate_walk_total_counterexample :
    demo_image_two
      = demo_lead ++ demo_boot ++ (demo_payloads.map payload_segment).flatten ++ demo_fsseg ∧
    demo_skip_elf_header demo_image_two 0 = demo_lead.length ∧
    demo_skip_elf_header demo_image_two demo_lead.length = demo_boot.length ∧
    demo_payloads.length = 13 ∧
    (relocate_extract demo_skip_elf_header fs_empty env_empty demo_image_two "/i" "/b"
        "/b/busybox").ret = .error "Could not read binary" := by
  decide

/-- C4 (as amended): the length-prefixed step raises when fewer than eight bytes remain at
`o`, whether or not the destination exists, and when the destination does not exist and
fewer than `L` bytes remain after the length field that decodes to `L`. -/
theorem f_write_from_offset_short_read (fs : FileSys) (file_binary : IfStream)
    (path_file : Path) (o : Nat)
    (hshort : file_binary.data.length < o + 8 ∨
      (fs.exists path_file = false ∧
        file_binary.data.length < o + 8 + le_u64 ((file_binary.data.drop o).take 8))) :
    ∃ msg, (f_write_from_offset fs file_binary path_file o).ret = .error msg := by
  rcases hshort with h | ⟨hex, h⟩
  · exact ⟨_, f_write_from_offset_short_size fs file_binary path_file o h⟩
  · exact f_write_from_offset_short_payload fs file_binary path_file o hex h

/-- Witness for C4: a length field cut short, with the destination present and with it
missing, and a payload cut short with the destination missing. -/
theorem f_write_from_offset_short_read_witness :
    (∃ msg, (f_write_from_offset fs_cached (IfStream.open demo_truncated) "/b/bash" 3).ret
      = .error msg) ∧
    (∃ msg, (f_write_from_offset fs_empty (IfStream.open demo_truncated) "/b/bash" 3).ret
      = .error msg) ∧
    (∃ msg, (f_write_from_offset fs_empty (IfStream.open demo_truncated) "/b/bash" 0).ret
      = .error msg) :=
  ⟨f_write_from_offset_short_read fs_cached (IfStream.open demo_truncated) "/b/bash" 3
      (Or.inl (by decide)),
    f_write_from_offset_short_read fs_empty (IfStream.open demo_truncated) "/b/bash" 3
      (Or.inl (by decide)),
    f_write_from_offset_short_read fs_empty (IfStream.open demo_truncated) "/b/bash" 0
      (Or.inr ⟨rfl, by decide⟩)⟩

/-- Counterexample to C4 as stated: the length field of `demo_truncated` decodes to 5, only
2 bytes remain after it, the destination exists, and the step returns the span `(0, 13)`
instead of raising. -/
theorem f_write_from_offset_short_read_counterexample :
    le_u64 ((demo_truncated.drop 0).take 8) = 5 ∧ demo_truncated.length - (0 + 8) = 2 ∧
    fs_cached.exists "/b/bash" = true ∧
    (f_write_from_offset fs_cached (IfStream.open demo_truncated) "/b/bash" 0).ret
      = .ok (0, 13) := by
  decide

end FlatImage
namespace FlatImage

/-- C5: a length-prefixed step whose destination exists leaves the whole file system (the
content and permissions of the destination and of every other file) and the bytes of the
stream as they are, and only moves the cursor; consequently, after a first run of the
thirteen steps that returned, every further run of the thirteen steps over the cache it
left ends in that same file system, whether it returns or raises; and on an image of fewer
than `2 ^ 63` bytes the second run returns the offsets of the first. -/
theorem extraction_idempotent (fs : FileSys) (s : IfStream) (p : Path) (o : Nat)
    (fs0 : FileSys) (s0 : IfStream) (ab bb : Path) (b e : Nat) (x : Nat × Nat)
    (hex : fs.exists p = true)
    (hfirst : (payload_walk fs0 s0 (payload_paths ab bb) b e).ret = .ok x) :
    (f_write_from_offset fs s p o).fs = fs ∧
    (f_write_from_offset fs s p o).file_binary.data = s.data ∧
    (∀ (s2 : IfStream) (b2 e2 : Nat),
      (payload_walk (payload_walk fs0 s0 (payload_paths ab bb) b e).fs
          s2 (payload_paths ab bb) b2 e2).fs
        = (payload_walk fs0 s0 (payload_paths ab bb) b e).fs) ∧
    (s0.data.length < 2 ^ 63 →
      (payload_walk (payload_walk fs0 s0 (payload_paths ab bb) b e).fs
          s0 (payload_paths ab bb) b e).ret = .ok x) := by
  have hall := payload_walk_ok_exists (payload_paths ab bb) fs0 s0 b e x hfirst
  exact ⟨f_write_from_offset_exists_fs fs s p o hex, f_write_from_offset_data fs s p o,
    fun s2 b2 e2 => payload_walk_all_exist (payload_paths ab bb) _ s2 b2 e2 hall,
    fun hsize => payload_walk_rerun (payload_paths ab bb) fs0 _ s0 b e x hsize hfirst hall⟩

/-- Witness for C5: a step on the cached `/b/bash`, and the thirteen payloads of
`demo_image` walked from offset 4 into an empty cache. -/
theorem extraction_idempotent_witness :
    (f_write_from_offset fs_cached (IfStream.open demo_segment) "/b/bash" 0).fs = fs_cached ∧
    (f_write_from_offset fs_cached (IfStream.open demo_segment) "/b/bash" 0).file_binary.data
      = demo_segment ∧
    (∀ (s2 : IfStream) (b2 e2 : Nat),
      (payload_walk
          (payload_walk fs_empty (IfStream.open demo_image) (payload_paths "/b" "/b/busybox")
            0 4).fs
          s2 (payload_paths "/b" "/b/busybox") b2 e2).fs
        = (payload_walk fs_empty (IfStream.open demo_image) (payload_paths "/b" "/b/busybox")
            0 4).fs) ∧
    ((IfStream.open demo_image).data.length < 2 ^ 63 →
      (payload_walk
          (payload_walk fs_empty (IfStream.open demo_image) (payload_paths "/b" "/b/busybox")
            0 4).fs
          (IfStream.open demo_image) (payload_paths "/b" "/b/busybox") 0 4).ret
        = .ok (112, 123)) :=
  extraction_idempotent fs_cached (IfStream.open demo_segment) "/b/bash" 0 fs_empty
    (IfStream.open demo_image) "/b" "/b/busybox" 0 4 (112, 123) (by decide) (by decide)

/-- C6 (as amended): when the extraction of `relocate` returns on a self-image whose
`instance/<id>/fim_boot` was missing, `skip_elf_header` being a 64-bit value that is the same
on the leading program image alone as on the packed file, the file written to `fim_boot`
holds the bytes `[0, P)` and satisfies `file_size(fim_boot) == skip_elf_header(fim_boot)`, so
`main` run on it never calls `relocate` and takes the boot branch unless it was asked for
the version; and `main` calls `relocate` exactly when it was not asked for the version, the
path of the executable was resolved, and `file_size(self) != skip_elf_header(self)`. -/
theorem relocation_gate (skip : List Byte → Nat → Nat) (fs : FileSys) (self : List Byte)
    (di ab bb : Path) (argv : List String) (x : Nat × Nat)
    (hok : (relocate_write_binaries skip fs self di ab bb).ret = .ok x)
    (hfresh : fs.exists (path_join di "fim_boot") = false)
    (hu64 : skip self 0 < 2 ^ 64)
    (himg : skip (self.take (skip self 0)) 0 = skip self 0) :
    (∃ n, (relocate_write_binaries skip fs self di ab bb).fs.node (path_join di "fim_boot")
          = some n ∧
        n.content = self.take (skip self 0) ∧
        n.content.length = skip n.content 0 ∧
        main skip argv (.ok n.content) ≠ .relocate ∧
        (¬ (argv.length > 1 ∧ argv.get? 1 = some "fim-version") →
          main skip argv (.ok n.content) = .boot)) ∧
    (∀ (file_self : Except String (List Byte)),
      main skip argv file_self = .relocate ↔
        ¬ (argv.length > 1 ∧ argv.get? 1 = some "fim-version") ∧
        ∃ bytes, file_self = .ok bytes ∧ bytes.length ≠ skip bytes 0) := by
  constructor
  · have hP : (skip (IfStream.open self).data 0 + 0) % 2 ^ 64 = skip self 0 := by
      show (skip self 0 + 0) % 2 ^ 64 = skip self 0
      rw [Nat.add_zero, Nat.mod_eq_of_lt hu64]
    cases hh : (f_write_from_header skip fs (IfStream.open self) (path_join di "fim_boot") 0).ret
      with
    | error m =>
      rw [relocate_write_binaries_of_header_error skip fs self di ab bb m hh] at hok
      cases hok
    | ok y =>
      obtain ⟨hy, hnode⟩ := f_write_from_header_ok_fresh skip fs (IfStream.open self)
        (path_join di "fim_boot") 0 y hfresh hh
      rw [hP] at hy hnode
      subst hy
      rw [relocate_write_binaries_of_header skip fs self di ab bb 0 _ hh] at hok ⊢
      have hbound := payload_walk_ok_bound _ _ _ _ _ _ x hok
      have hlen : skip self 0 ≤ self.length := by
        have : (IfStream.open self).data = self := rfl
        rw [this] at hbound
        omega
      have hmin : min (skip self 0) self.length = skip self 0 := Nat.min_eq_left hlen
      have hgate : ¬ ((self.take (skip self 0)).length ≠ skip (self.take (skip self 0)) 0) := by
        rw [himg, List.length_take, hmin]
        exact fun h => h rfl
      refine ⟨_, payload_walk_node _ _ _ _ _ _ _ hnode, ?_, ?_, ?_, ?_⟩
      · simp [IfStream.open]
      · simp only [IfStream.open, List.drop_zero, Nat.sub_zero]
        exact not_not.mp hgate
      · simp only [IfStream.open, List.drop_zero, Nat.sub_zero]
        unfold main
        by_cases hv : argv.length > 1 ∧ argv.get? 1 = some "fim-version"
        · rw [if_pos hv]; intro h; cases h
        · rw [if_neg hv]
          dsimp only
          rw [if_neg hgate]
          intro h; cases h
      · intro hv
        simp only [IfStream.open, List.drop_zero, Nat.sub_zero]
        unfold main
        rw [if_neg hv]
        dsimp only
        rw [if_neg hgate]
  · intro file_self
    unfold main
    by_cases hv : argv.length > 1 ∧ argv.get? 1 = some "fim-version"
    · rw [if_pos hv]
      constructor
      · intro h; cases h
      · rintro ⟨h, _⟩; exact absurd hv h
    · rw [if_neg hv]
      cases file_self with
      | error m =>
        dsimp only
        constructor
        · intro h; cases h
        · rintro ⟨_, bytes, hb, _⟩; cases hb
      | ok bytes =>
        dsimp only
        by_cases hs : bytes.length ≠ skip bytes 0
        · rw [if_pos hs]
          exact ⟨fun _ => ⟨hv, bytes, rfl, hs⟩, fun _ => rfl⟩
        · rw [if_neg hs]
          constructor
          · intro h; cases h
          · rintro ⟨_, b1, hb, hs1⟩
            cases hb
            exact absurd hs1 hs

/-- Witness for C6: `demo_image` extracted into an empty cache, `main` started without
arguments. -/
theorem relocation_gate_witness :
    (∃ n, (relocate_write_binaries demo_skip_elf_header fs_empty demo_image "/i" "/b"
            "/b/busybox").fs.node (path_join "/i" "fim_boot") = some n ∧
        n.content = demo_image.take (demo_skip_elf_header demo_image 0) ∧
        n.content.length = demo_skip_elf_header n.content 0 ∧
        main demo_skip_elf_header ["fim"] (.ok n.content) ≠ .relocate ∧
        (¬ (["fim"].length > 1 ∧ ["fim"].get? 1 = some "fim-version") →
          main demo_skip_elf_header ["fim"] (.ok n.content) = .boot)) ∧
    (∀ (file_self : Except String (List Byte)),
      main demo_skip_elf_header ["fim"] file_self = .relocate ↔
        ¬ (["fim"].length > 1 ∧ ["fim"].get? 1 = some "fim-version") ∧
        ∃ bytes, file_self = .ok bytes ∧ bytes.length ≠ demo_skip_elf_header bytes 0) :=
  relocation_gate demo_skip_elf_header fs_empty demo_image "/i" "/b" "/b/busybox" ["fim"]
    (112, 123) (by decide) rfl (by decide) (by decide)

/-- Counterexample to C6 as stated: for the packed image `demo_image` the file size differs
from `skip_elf_header`, yet `main` called with `fim-version` prints the version and does
not call `relocate`; nor does it when the path of the executable cannot be resolved. -/
theorem relocation_gate_counterexample :
    demo_image.length ≠ demo_skip_elf_header demo_image 0 ∧
    main demo_skip_elf_header ["fim", "fim-version"] (.ok demo_image) = .print_version ∧
    main demo_skip_elf_header ["fim"] (.error "Could not resolve self") = .exit_failure := by
  decide

end FlatImage
namespace FlatImage
namespace ns_permissions

/-! ## Lower-casing -/

theorem toNat_ofNat_small (n : Nat) (h : n < 0xd800) : (Char.ofNat n).toNat = n := by
  have hv : n.isValidChar := Or.inl h
  unfold Char.ofNat
  rw [dif_pos hv]
  rfl

theorem tolower_tolower (c : Char) : tolower (tolower c) = tolower c := by
  unfold tolower
  by_cases h : 65 ≤ c.toNat ∧ c.toNat ≤ 90
  · rw [if_pos h, toNat_ofNat_small _ (by omega), if_neg (by omega)]
  · rw [if_neg h, if_neg h]

theorem transform_tolower_idem (s : String) :
    transform_tolower (transform_tolower s) = transform_tolower s := by
  unfold transform_tolower
  simp only [List.map_map]
  congr 1
  apply List.map_congr_left
  intro c _
  exact tolower_tolower c

/-- The method `Bits::set` sees only the lowered name. -/
theorem Bits.set_lower (b : Bits) (s : String) (v : Bool) :
    b.set (transform_tolower s) v = b.set s v := by
  unfold Bits.set
  rw [transform_tolower_idem]

end ns_permissions
end FlatImage
namespace FlatImage

/-! ## The reserved region -/

/-- Overwriting `data.length` bytes at `offset` keeps the length of the content. -/
theorem overwrite_length (c data : List Byte) (offset : Nat)
    (h : offset + data.length ≤ c.length) :
    (c.take offset ++ data ++ c.drop (offset + data.length)).length = c.length := by
  simp only [List.length_append, List.length_take, List.length_drop]
  omega

/-- Bytes outside the overwritten range are kept. -/
theorem overwrite_outside (c data : List Byte) (offset i : Nat)
    (h : offset + data.length ≤ c.length) (hi : i < offset ∨ offset + data.length ≤ i) :
    (c.take offset ++ data ++ c.drop (offset + data.length)).get? i = c.get? i := by
  simp only [List.get?_eq_getElem?]
  have hlt : (c.take offset).length = offset := by
    rw [List.length_take]; omega
  rcases hi with hi | hi
  · rw [List.append_assoc, List.getElem?_append_left (by rw [hlt]; exact hi),
      List.getElem?_take_of_lt hi]
  · rw [List.getElem?_append_right (by simp only [List.length_append, hlt]; exact hi),
      List.getElem?_drop]
    simp only [List.length_append, hlt]
    congr 1
    omega

/-- Reading back the overwritten range gives the data. -/
theorem overwrite_inside (c data : List Byte) (offset : Nat)
    (h : offset + data.length ≤ c.length) :
    ((c.take offset ++ data ++ c.drop (offset + data.length)).drop offset).take data.length
      = data := by
  have hlt : (c.take offset).length = offset := by
    rw [List.length_take]; omega
  rw [List.append_assoc, List.drop_left' hlt, List.take_left' rfl]

/-- A write into a region that lies inside an existing file and is large enough. -/
theorem ns_reserved.reserved_write_ok (fs : FileSys) (path : Path) (n : FileNode) (offset size : Nat)
    (data : List Byte) (hfile : fs.node path = some n) (hsize : data.length ≤ size)
    (hin : offset + data.length ≤ n.content.length) :
    ns_reserved.write fs path offset size data =
      (fs.put path { n with
        content := n.content.take offset ++ data ++ n.content.drop (offset + data.length) },
        none) := by
  unfold ns_reserved.write
  rw [if_neg (by omega), hfile]
  dsimp only
  rw [if_neg (by omega)]

/-- A read from a region that lies inside an existing file. -/
theorem ns_reserved.reserved_read_ok (fs : FileSys) (path : Path) (n : FileNode) (offset length : Nat)
    (hfile : fs.node path = some n) (hin : offset + length ≤ n.content.length) :
    ns_reserved.read fs path offset length = .ok ((n.content.drop offset).take length) := by
  unfold ns_reserved.read
  rw [hfile]
  dsimp only
  rw [if_neg (by omega)]

/-- A read that succeeds found the file and the region inside it. -/
theorem ns_reserved.reserved_read_inv (fs : FileSys) (path : Path) (offset length : Nat)
    (buffer : List Byte) (h : ns_reserved.read fs path offset length = .ok buffer) :
    ∃ n, fs.node path = some n ∧ offset + length ≤ n.content.length ∧
      buffer = (n.content.drop offset).take length := by
  unfold ns_reserved.read at h
  cases hn : fs.node path with
  | none => rw [hn] at h; cases h
  | some n =>
    rw [hn] at h
    dsimp only at h
    by_cases hlt : n.content.length < offset + length
    · rw [if_pos hlt] at h; cases h
    · rw [if_neg hlt] at h
      cases h
      exact ⟨n, rfl, by omega, rfl⟩

namespace ns_permissions

/-! ## The bit record and its bytes -/

theorem decide_eq_one_of_toNat (n : Nat) (x : Bool) (h : n = x.toNat) :
    decide (n = 1) = x := by
  subst h
  cases x <;> rfl

theorem Bits.to_bytes_length (b : Bits) : b.to_bytes.length = 8 := by
  unfold Bits.to_bytes sizeof_Bits
  exact le_bytes_length 8 _

/-- Copying a record to its bytes and back gives the record. -/
theorem Bits.of_bytes_to_bytes (b : Bits) : Bits.of_bytes b.to_bytes = b := by
  have h0 := Bool.toNat_le b.home
  have h1 := Bool.toNat_le b.media
  have h2 := Bool.toNat_le b.audio
  have h3 := Bool.toNat_le b.wayland
  have h4 := Bool.toNat_le b.xorg
  have h5 := Bool.toNat_le b.dbus_user
  have h6 := Bool.toNat_le b.dbus_system
  have h7 := Bool.toNat_le b.udev
  have h8 := Bool.toNat_le b.usb
  have h9 := Bool.toNat_le b.input
  have h10 := Bool.toNat_le b.gpu
  have h11 := Bool.toNat_le b.network
  have h12 : b.spare.val < 2 ^ 52 := b.spare.isLt
  have hw : le_u64 (le_bytes 8 b.word) = b.word :=
    le_u64_le_bytes 8 _ (by unfold Bits.word; omega)
  unfold Bits.of_bytes Bits.to_bytes sizeof_Bits
  rw [hw]
  obtain ⟨b0, b1, b2, b3, b4, b5, b6, b7, b8, b9, b10, b11, ⟨b12, hb⟩⟩ := b
  unfold Bits.of_word Bits.word
  simp only [Bits.mk.injEq] at h0 h1 h2 h3 h4 h5 h6 h7 h8 h9 h10 h11 h12 ⊢
  refine ⟨?_, ?_, ?_, ?_, ?_, ?_, ?_, ?_, ?_, ?_, ?_, ?_, ?_⟩
  case refine_13 => exact Fin.ext (by simp only; omega)
  all_goals exact decide_eq_one_of_toNat _ _ (by omega)

/-- Writing a record into a large enough region inside a file and reading it back. -/
theorem bits_read_write (fs : FileSys) (path : Path) (n : FileNode) (offset size : Nat) (B : Bits)
    (hfile : fs.node path = some n) (hsize : 8 ≤ size)
    (hin : offset + 8 ≤ n.content.length) :
    write fs path offset size B =
      (fs.put path { n with
        content := n.content.take offset ++ B.to_bytes ++ n.content.drop (offset + 8) },
        none) ∧
    read (write fs path offset size B).1 path offset size = .ok B := by
  have hlen := Bits.to_bytes_length B
  have hw := ns_reserved.reserved_write_ok fs path n offset size B.to_bytes hfile (by omega) (by omega)
  rw [hlen] at hw
  unfold write
  rw [hw]
  refine ⟨rfl, ?_⟩
  unfold read sizeof_Bits
  rw [if_neg (by omega)]
  have hin2 : offset + B.to_bytes.length ≤ n.content.length := by omega
  have hr := ns_reserved.reserved_read_ok
    (fs.put path { n with
      content := n.content.take offset ++ B.to_bytes ++ n.content.drop (offset + 8) })
    path _ offset 8 (by rw [FileSys.node_put, if_pos rfl])
    (by
      have := overwrite_length n.content B.to_bytes offset hin2
      rw [hlen] at this
      simp only [this]; omega)
  rw [hr]
  dsimp only
  have hi := overwrite_inside n.content B.to_bytes offset hin2
  rw [hlen] at hi
  rw [hi, Bits.of_bytes_to_bytes]

/-- A successful read of the record found a large enough region inside a file. -/
theorem bits_read_inv (fs : FileSys) (path : Path) (offset size : Nat) (B : Bits)
    (h : read fs path offset size = .ok B) :
    8 ≤ size ∧ ∃ n, fs.node path = some n ∧ offset + 8 ≤ n.content.length := by
  unfold read sizeof_Bits at h
  by_cases hs : 8 > size
  · rw [if_pos hs] at h; cases h
  · rw [if_neg hs] at h
    cases hr : ns_reserved.read fs path offset 8 with
    | error e => rw [hr] at h; cases h
    | ok buffer =>
      obtain ⟨n, hn, hle, _⟩ := ns_reserved.reserved_read_inv fs path offset 8 buffer hr
      exact ⟨by omega, n, hn, hle⟩

end ns_permissions
end FlatImage
namespace FlatImage
namespace ns_permissions

/-! ## Flags by name -/

theorem ite_apply_eq {α β : Type} (f : α → β) (p : Prop) [Decidable p] (x y : α) (z : β)
    (h1 : p → f x = z) (h2 : ¬ p → f y = z) : f (if p then x else y) = z := by
  by_cases hp : p
  · rw [if_pos hp]; exact h1 hp
  · rw [if_neg hp]; exact h2 hp

/-- Effect of `Bits::set` on the flag of a capability name. -/
theorem Bits.flag_set (b : Bits) (s : String) (v : Bool) (c : String)
    (hc : c ∈ capability_names) :
    (b.set s v).flag c = if transform_tolower s = c then v else b.flag c := by
  unfold Bits.set
  generalize transform_tolower s = t
  simp only [capability_names, List.mem_cons, List.mem_singleton, List.not_mem_nil,
    or_false] at hc
  by_cases h : t = c
  · subst h
    rw [if_pos rfl]
    rcases hc with rfl | rfl | rfl | rfl | rfl | rfl | rfl | rfl | rfl | rfl | rfl | rfl <;> rfl
  · rw [if_neg h]
    dsimp only
    rcases hc with rfl | rfl | rfl | rfl | rfl | rfl | rfl | rfl | rfl | rfl | rfl | rfl <;>
      exact ite_apply_eq (fun x => Bits.flag x _) _ _ _ _
        (fun hp => by first | rfl | exact absurd hp h) (fun _ =>
        ite_apply_eq (fun x => Bits.flag x _) _ _ _ _
        (fun hp => by first | rfl | exact absurd hp h) (fun _ =>
        ite_apply_eq (fun x => Bits.flag x _) _ _ _ _
        (fun hp => by first | rfl | exact absurd hp h) (fun _ =>
        ite_apply_eq (fun x => Bits.flag x _) _ _ _ _
        (fun hp => by first | rfl | exact absurd hp h) (fun _ =>
        ite_apply_eq (fun x => Bits.flag x _) _ _ _ _
        (fun hp => by first | rfl | exact absurd hp h) (fun _ =>
        ite_apply_eq (fun x => Bits.flag x _) _ _ _ _
        (fun hp => by first | rfl | exact absurd hp h) (fun _ =>
        ite_apply_eq (fun x => Bits.flag x _) _ _ _ _
        (fun hp => by first | rfl | exact absurd hp h) (fun _ =>
        ite_apply_eq (fun x => Bits.flag x _) _ _ _ _
        (fun hp => by first | rfl | exact absurd hp h) (fun _ =>
        ite_apply_eq (fun x => Bits.flag x _) _ _ _ _
        (fun hp => by first | rfl | exact absurd hp h) (fun _ =>
        ite_apply_eq (fun x => Bits.flag x _) _ _ _ _
        (fun hp => by first | rfl | exact absurd hp h) (fun _ =>
        ite_apply_eq (fun x => Bits.flag x _) _ _ _ _
        (fun hp => by first | rfl | exact absurd hp h) (fun _ =>
        ite_apply_eq (fun x => Bits.flag x _) _ _ _ _
        (fun hp => by first | rfl | exact absurd hp h) (fun _ =>
        rfl))))))))))))

/-- Effect of setting a list of names to the same value. -/
theorem Bits.flag_foldl_set (names : List String) (b : Bits) (v : Bool) (c : String)
    (hc : c ∈ capability_names) :
    (names.foldl (fun (bits : Bits) e => bits.set e v) b).flag c =
      if c ∈ names.map transform_tolower then v else b.flag c := by
  induction names generalizing b with
  | nil => simp
  | cons e rest ih =>
    rw [List.foldl_cons, ih, Bits.flag_set b e v c hc]
    by_cases h1 : c ∈ rest.map transform_tolower
    · simp [h1]
    · by_cases h2 : transform_tolower e = c
      · simp [h2]
      · have h3 : ¬ c = transform_tolower e := fun h => h2 h.symm
        simp [h1, h2, h3]

theorem ite_push_back (cond : Bool) (out : List String) (name : String) :
    (if cond = true then out ++ [name] else out) = out ++ (if cond = true then [name] else []) := by
  cases cond <;> simp

theorem filter_cons_append (p : String → Bool) (a : String) (l : List String) :
    (a :: l).filter p = (if p a = true then [a] else []) ++ l.filter p := by
  rw [List.filter_cons]
  cases p a <;> simp

/-- The listing is the canonical list filtered by the flags. -/
theorem Bits.to_vector_string_eq (b : Bits) :
    b.to_vector_string = capability_names.filter (fun c => b.flag c) := by
  have e0 : b.flag "home" = b.home := rfl
  have e1 : b.flag "media" = b.media := rfl
  have e2 : b.flag "audio" = b.audio := rfl
  have e3 : b.flag "wayland" = b.wayland := rfl
  have e4 : b.flag "xorg" = b.xorg := rfl
  have e5 : b.flag "dbus_user" = b.dbus_user := rfl
  have e6 : b.flag "dbus_system" = b.dbus_system := rfl
  have e7 : b.flag "udev" = b.udev := rfl
  have e8 : b.flag "usb" = b.usb := rfl
  have e9 : b.flag "input" = b.input := rfl
  have e10 : b.flag "gpu" = b.gpu := rfl
  have e11 : b.flag "network" = b.network := rfl
  unfold Bits.to_vector_string capability_names
  simp only [filter_cons_append, List.filter_nil, e0, e1, e2, e3, e4, e5, e6, e7, e8, e9, e10,
    e11]
  simp only [ite_push_back]
  simp only [List.append_assoc, List.nil_append, List.append_nil]

end ns_permissions
end FlatImage
namespace FlatImage
namespace ns_permissions

/-! ## Claims about the permission bits -/

/-- What `Permissions::to_vector_string` returns after a record was written into a large
enough region inside a file. -/
theorem Permissions.list_after_write (p : Permissions) (fs : FileSys) (n : FileNode)
    (bits : Bits) (hfile : fs.node p.m_path_file_binary = some n)
    (hsize : 8 ≤ to_uint64 p.m_size)
    (hin : to_uint64 p.m_offset + 8 ≤ n.content.length) :
    p.get (write fs p.m_path_file_binary (to_uint64 p.m_offset) (to_uint64 p.m_size) bits).1
      = .ok bits ∧
    p.to_vector_string
      (write fs p.m_path_file_binary (to_uint64 p.m_offset) (to_uint64 p.m_size) bits).1
      = capability_names.filter (fun c => bits.flag c) := by
  have h := (bits_read_write fs p.m_path_file_binary n (to_uint64 p.m_offset) (to_uint64 p.m_size)
    bits hfile hsize hin).2
  unfold Permissions.get Permissions.to_vector_string
  rw [h]
  exact ⟨rfl, Bits.to_vector_string_eq bits⟩

/-- C8 (spec-modelled region): when the region of a `Permissions` object stores the record
`B`, after `add(names)` the stored record has every flag named in `names` (after
lower-casing) set and every other flag as in `B`, and after `del(names)` it has every flag
named cleared and every other flag as in `B`. -/
theorem add_del_change_listed_flags (p : Permissions) (fs : FileSys) (B : Bits)
    (names : List String) (hB : p.get fs = .ok B) :
    (∃ A, p.get (p.add fs names) = .ok A ∧
      ∀ c ∈ capability_names,
        A.flag c = (decide (c ∈ names.map transform_tolower) || B.flag c)) ∧
    (∃ D, p.get (p.del fs names) = .ok D ∧
      ∀ c ∈ capability_names,
        D.flag c = (!decide (c ∈ names.map transform_tolower) && B.flag c)) := by
  unfold Permissions.get at hB
  obtain ⟨hsize, n, hfile, hin⟩ := bits_read_inv fs _ _ _ B hB
  constructor
  · refine ⟨names.foldl (fun (bits : Bits) e => bits.set e true) B, ?_, ?_⟩
    · unfold Permissions.add
      rw [hB]
      exact (Permissions.list_after_write p fs n _ hfile hsize hin).1
    · intro c hc
      rw [Bits.flag_foldl_set names B true c hc]
      by_cases hm : c ∈ names.map transform_tolower
      · rw [if_pos hm]; simp [hm]
      · rw [if_neg hm]; simp [hm]
  · refine ⟨names.foldl (fun (bits : Bits) e => bits.set e false) B, ?_, ?_⟩
    · unfold Permissions.del
      rw [hB]
      exact (Permissions.list_after_write p fs n _ hfile hsize hin).1
    · intro c hc
      rw [Bits.flag_foldl_set names B false c hc]
      by_cases hm : c ∈ names.map transform_tolower
      · rw [if_pos hm]; simp [hm]
      · rw [if_neg hm]; simp [hm]

/-- Witness for C8: starting from `{home, network}`, `add({audio})` lists
`[home, audio, network]` and then `del({home})` lists `[audio, network]`. -/
theorem add_del_change_listed_flags_witness :
    ((∃ A, (Permissions.construct "/fim" 4 12).get
          ((Permissions.construct "/fim" 4 12).add
            ((Permissions.construct "/fim" 4 12).set fs_reserved ["home", "network"])
            ["audio"]) = .ok A ∧
        ∀ c ∈ capability_names,
          A.flag c = (decide (c ∈ ["audio"].map transform_tolower)
            || Bits.flag { home := true, network := true } c)) ∧
      (∃ D, (Permissions.construct "/fim" 4 12).get
          ((Permissions.construct "/fim" 4 12).del
            ((Permissions.construct "/fim" 4 12).set fs_reserved ["home", "network"])
            ["audio"]) = .ok D ∧
        ∀ c ∈ capability_names,
          D.flag c = (!decide (c ∈ ["audio"].map transform_tolower)
            && Bits.flag { home := true, network := true } c))) ∧
    (Permissions.construct "/fim" 4 12).to_vector_string
        ((Permissions.construct "/fim" 4 12).add
          ((Permissions.construct "/fim" 4 12).set fs_reserved ["home", "network"]) ["audio"])
      = ["home", "audio", "network"] ∧
    (Permissions.construct "/fim" 4 12).to_vector_string
        ((Permissions.construct "/fim" 4 12).del
          ((Permissions.construct "/fim" 4 12).add
            ((Permissions.construct "/fim" 4 12).set fs_reserved ["home", "network"])
            ["audio"])
          ["home"])
      = ["audio", "network"] :=
  ⟨add_del_change_listed_flags (Permissions.construct "/fim" 4 12)
      ((Permissions.construct "/fim" 4 12).set fs_reserved ["home", "network"])
      { home := true, network := true } ["audio"] (by decide),
    by decide, by decide⟩

/-- C9 (spec-modelled region): for a file, an offset and a reserved size of at least
`sizeof(Bits)` lying inside the file, and any record `B`, `write` reports no error, `read`
after it returns `B`, the file keeps its length and permissions, every byte outside
`[offset, offset + sizeof(Bits))` is as before, and no other file changes. -/
theorem metadata_round_trip (fs : FileSys) (path : Path) (n : FileNode) (offset size : Nat)
    (B : Bits) (hfile : fs.node path = some n) (hsize : sizeof_Bits ≤ size)
    (hin : offset + size ≤ n.content.length) :
    (write fs path offset size B).2 = none ∧
    read (write fs path offset size B).1 path offset size = .ok B ∧
    (∃ m, (write fs path offset size B).1.node path = some m ∧
      m.content.length = n.content.length ∧ m.perms = n.perms ∧
      ∀ i, i < offset ∨ offset + sizeof_Bits ≤ i → m.content.get? i = n.content.get? i) ∧
    ∀ q, q ≠ path → (write fs path offset size B).1.node q = fs.node q := by
  unfold sizeof_Bits at hsize ⊢
  have hlen := Bits.to_bytes_length B
  obtain ⟨hw, hr⟩ := bits_read_write fs path n offset size B hfile hsize (by omega)
  refine ⟨by rw [hw], hr, ?_, ?_⟩
  · rw [hw]
    refine ⟨⟨n.content.take offset ++ B.to_bytes ++ n.content.drop (offset + 8), n.perms⟩,
      by rw [FileSys.node_put, if_pos rfl], ?_, rfl, ?_⟩
    · have := overwrite_length n.content B.to_bytes offset (by omega)
      rw [hlen] at this
      exact this
    · intro i hi
      have := overwrite_outside n.content B.to_bytes offset i (by omega) (by omega)
      rw [hlen] at this
      exact this
  · intro q hq
    rw [hw, FileSys.node_put, if_neg hq]

/-- Witness for C9: the record `{home, network}` written at offset 4 of `demo_reserved`
with a reserved size of 8. -/
theorem metadata_round_trip_witness :
    (write fs_reserved "/fim" 4 8 { home := true, network := true }).2 = none ∧
    read (write fs_reserved "/fim" 4 8 { home := true, network := true }).1 "/fim" 4 8
      = .ok { home := true, network := true } ∧
    (∃ m, (write fs_reserved "/fim" 4 8 { home := true, network := true }).1.node "/fim"
        = some m ∧
      m.content.length = demo_reserved.length ∧ m.perms = 0o755 ∧
      ∀ i, i < 4 ∨ 4 + sizeof_Bits ≤ i → m.content.get? i = demo_reserved.get? i) ∧
    ∀ q, q ≠ "/fim" →
      (write fs_reserved "/fim" 4 8 { home := true, network := true }).1.node q
        = fs_reserved.node q :=
  metadata_round_trip fs_reserved "/fim" ⟨demo_reserved, 0o755⟩ 4 8
    { home := true, network := true } rfl (by decide) (by decide)

/-- C10: `Bits::set(s, v)` gives the same record as `Bits::set(lower(s), v)`, where `lower`
maps the ASCII letters `A`..`Z` to `a`..`z` and keeps every other character; hence
`Permissions::set` stores the same bits for a list of names as for the lowered names, in
particular for `["Home", "MEDIA"]` and `["home", "media"]`. -/
theorem capability_name_normalization (b : Bits) (v : Bool) (s : String) (p : Permissions)
    (fs : FileSys) (names : List String) :
    b.set s v = b.set (transform_tolower s) v ∧
    (∀ c : Char, tolower c =
      if 'A'.toNat ≤ c.toNat ∧ c.toNat ≤ 'Z'.toNat then Char.ofNat (c.toNat + 32) else c) ∧
    transform_tolower "Home" = "home" ∧ transform_tolower "MEDIA" = "media" ∧
    p.set fs names = p.set fs (names.map transform_tolower) ∧
    p.set fs ["Home", "MEDIA"] = p.set fs ["home", "media"] := by
  have hfold : ∀ (l : List String) (b0 : Bits),
      l.foldl (fun (bits : Bits) e => bits.set e true) b0 =
        (l.map transform_tolower).foldl (fun (bits : Bits) e => bits.set e true) b0 := by
    intro l
    induction l with
    | nil => intro b0; rfl
    | cons e rest ih =>
      intro b0
      rw [List.map_cons, List.foldl_cons, List.foldl_cons, Bits.set_lower, ih]
  refine ⟨(Bits.set_lower b s v).symm, fun c => rfl, by decide, by decide, ?_, ?_⟩
  · unfold Permissions.set
    rw [hfold names]
  · unfold Permissions.set
    rw [hfold ["Home", "MEDIA"]]
    rfl

end ns_permissions
end FlatImage

namespace FlatImage
namespace ns_permissions

/-! ## Unknown names -/

/-- The method `Bits::set` as embedded is the body of the source run through the modelled
`ns_match::match`. -/
theorem Bits.set_eq_set_by_match (b : Bits) (permission : String) (value : Bool) :
    b.set permission value = b.set_by_match permission value := by
  unfold Bits.set Bits.set_by_match
  generalize transform_tolower permission = t
  simp only [ns_match.«match»]
  by_cases h0 : t = "home"
  · rw [if_pos h0, if_pos h0]
  rw [if_neg h0, if_neg h0]
  by_cases h1 : t = "media"
  · rw [if_pos h1, if_pos h1]
  rw [if_neg h1, if_neg h1]
  by_cases h2 : t = "audio"
  · rw [if_pos h2, if_pos h2]
  rw [if_neg h2, if_neg h2]
  by_cases h3 : t = "wayland"
  · rw [if_pos h3, if_pos h3]
  rw [if_neg h3, if_neg h3]
  by_cases h4 : t = "xorg"
  · rw [if_pos h4, if_pos h4]
  rw [if_neg h4, if_neg h4]
  by_cases h5 : t = "dbus_user"
  · rw [if_pos h5, if_pos h5]
  rw [if_neg h5, if_neg h5]
  by_cases h6 : t = "dbus_system"
  · rw [if_pos h6, if_pos h6]
  rw [if_neg h6, if_neg h6]
  by_cases h7 : t = "udev"
  · rw [if_pos h7, if_pos h7]
  rw [if_neg h7, if_neg h7]
  by_cases h8 : t = "usb"
  · rw [if_pos h8, if_pos h8]
  rw [if_neg h8, if_neg h8]
  by_cases h9 : t = "input"
  · rw [if_pos h9, if_pos h9]
  rw [if_neg h9, if_neg h9]
  by_cases h10 : t = "gpu"
  · rw [if_pos h10, if_pos h10]
  rw [if_neg h10, if_neg h10]
  by_cases h11 : t = "network"
  · rw [if_pos h11, if_pos h11]
  rw [if_neg h11, if_neg h11]

/-- A name that is no capability name once lowered leaves the record as it is. -/
theorem Bits.set_unknown (b : Bits) (name : String) (v : Bool)
    (h : transform_tolower name ∉ capability_names) : b.set name v = b := by
  unfold Bits.set
  generalize transform_tolower name = t at h
  simp only [capability_names, List.mem_cons, List.mem_singleton, List.not_mem_nil,
    or_false, not_or] at h
  dsimp only
  rw [if_neg h.1, if_neg h.2.1, if_neg h.2.2.1, if_neg h.2.2.2.1, if_neg h.2.2.2.2.1, if_neg h.2.2.2.2.2.1, if_neg h.2.2.2.2.2.2.1, if_neg h.2.2.2.2.2.2.2.1, if_neg h.2.2.2.2.2.2.2.2.1, if_neg h.2.2.2.2.2.2.2.2.2.1, if_neg h.2.2.2.2.2.2.2.2.2.2.1, if_neg h.2.2.2.2.2.2.2.2.2.2.2]

/-- Setting a list of names to a value skips the names that are no capability names. -/
theorem Bits.foldl_set_filter (names : List String) (b : Bits) (v : Bool) :
    names.foldl (fun (bits : Bits) e => bits.set e v) b =
      (names.filter is_capability).foldl (fun (bits : Bits) e => bits.set e v) b := by
  induction names generalizing b with
  | nil => rfl
  | cons e rest ih =>
    rw [List.foldl_cons, List.filter_cons]
    by_cases hk : is_capability e = true
    · rw [if_pos hk, List.foldl_cons]
      exact ih _
    · rw [if_neg hk]
      have hne : transform_tolower e ∉ capability_names := by
        intro hmem
        exact hk (by unfold is_capability; exact decide_eq_true hmem)
      rw [Bits.set_unknown b e v hne]
      exact ih _

end ns_permissions
end FlatImage
namespace FlatImage
namespace ns_permissions

/-- C11 (spec-modelled match): for every record `b`, every boolean `v` and every name whose
ASCII-lower-cased form is none of the twelve capability names, `Bits::set(name, v)` returns
normally and leaves `b` as it is; so `Permissions::set`, `add` and `del` given a list store
the same record as when the unknown names are removed from the list. -/
theorem unknown_names_ignored (b : Bits) (v : Bool) (name : String) (p : Permissions)
    (fs : FileSys) (names : List String)
    (hunknown : transform_tolower name ∉ capability_names) :
    b.set name v = b ∧
    p.set fs names = p.set fs (names.filter is_capability) ∧
    p.add fs names = p.add fs (names.filter is_capability) ∧
    p.del fs names = p.del fs (names.filter is_capability) := by
  refine ⟨Bits.set_unknown b name v hunknown, ?_, ?_, ?_⟩
  · unfold Permissions.set
    rw [Bits.foldl_set_filter names]
  · unfold Permissions.add
    cases read fs p.m_path_file_binary (to_uint64 p.m_offset) (to_uint64 p.m_size) with
    | error e => rfl
    | ok expected =>
      dsimp only
      rw [Bits.foldl_set_filter names]
  · unfold Permissions.del
    cases read fs p.m_path_file_binary (to_uint64 p.m_offset) (to_uint64 p.m_size) with
    | error e => rfl
    | ok expected =>
      dsimp only
      rw [Bits.foldl_set_filter names]

/-- Witness for C11: the empty string among the names `home` and `Network`. -/
theorem unknown_names_ignored_witness :
    Bits.set { home := true } "" false = { home := true } ∧
    (Permissions.construct "/fim" 4 12).set fs_reserved ["home", "", "Network"]
      = (Permissions.construct "/fim" 4 12).set fs_reserved
          (["home", "", "Network"].filter is_capability) ∧
    (Permissions.construct "/fim" 4 12).add fs_reserved ["home", "", "Network"]
      = (Permissions.construct "/fim" 4 12).add fs_reserved
          (["home", "", "Network"].filter is_capability) ∧
    (Permissions.construct "/fim" 4 12).del fs_reserved ["home", "", "Network"]
      = (Permissions.construct "/fim" 4 12).del fs_reserved
          (["home", "", "Network"].filter is_capability) :=
  unknown_names_ignored { home := true } false "" (Permissions.construct "/fim" 4 12)
    fs_reserved ["home", "", "Network"] (by decide)

/-! ## A region smaller than the record -/

/-- The free function `read` refuses a reserved size below `sizeof(Bits)`. -/
theorem read_not_enough_space (fs : FileSys) (path : Path) (offset size : Nat)
    (h : size < sizeof_Bits) : read fs path offset size = .error "Not enough space for read" := by
  unfold read
  rw [if_pos h]

/-- When the value stored in `m_size` is below `sizeof(Bits)`, `get` returns the error and
`add` and `del` write nothing. -/
theorem Permissions.small_m_size (p : Permissions) (fs : FileSys) (names : List String)
    (h : to_uint64 p.m_size < sizeof_Bits) :
    p.get fs = .error "Not enough space for read" ∧ p.add fs names = fs ∧
    p.del fs names = fs := by
  have hr := read_not_enough_space fs p.m_path_file_binary (to_uint64 p.m_offset) _ h
  unfold Permissions.get Permissions.add Permissions.del
  rw [hr]
  exact ⟨rfl, rfl, rfl⟩

/-- C12 (as amended): the third argument of the constructor is stored in `m_size` and
handed to `read` and `write` as the reserved size. For a `Permissions` object constructed
with `(path, begin, end)` where `0 ≤ end < sizeof(Bits)`, `get()` returns the error
"Not enough space for read", `add` and `del` write nothing, whatever `begin` is; and the
free function `read(path, offset, size)` returns that error whenever
`size < sizeof(Bits)`. -/
theorem small_reserved_size_fails (fs : FileSys) (path : Path) (begin_ end_ : Int)
    (names : List String) (offset size : Nat)
    (hend : 0 ≤ end_ ∧ end_ < sizeof_Bits) (hsize : size < sizeof_Bits) :
    (Permissions.construct path begin_ end_).get fs = .error "Not enough space for read" ∧
    (Permissions.construct path begin_ end_).add fs names = fs ∧
    (Permissions.construct path begin_ end_).del fs names = fs ∧
    read fs path offset size = .error "Not enough space for read" := by
  have h8 : to_uint64 (Permissions.construct path begin_ end_).m_size < sizeof_Bits := by
    show to_uint64 end_ < sizeof_Bits
    obtain ⟨h0, h1⟩ := hend
    unfold to_uint64
    unfold sizeof_Bits at h1 ⊢
    omega
  obtain ⟨hg, ha, hd⟩ := Permissions.small_m_size (Permissions.construct path begin_ end_) fs
    names h8
  exact ⟨hg, ha, hd, read_not_enough_space fs path offset size hsize⟩

/-- Witness for C12: an object with offset 10 and reserved size 4 over `fs_reserved`, and
the free function with size 4. -/
theorem small_reserved_size_fails_witness :
    (Permissions.construct "/fim" 10 4).get fs_reserved = .error "Not enough space for read" ∧
    (Permissions.construct "/fim" 10 4).add fs_reserved ["home"] = fs_reserved ∧
    (Permissions.construct "/fim" 10 4).del fs_reserved ["home"] = fs_reserved ∧
    read fs_reserved "/fim" 10 4 = .error "Not enough space for read" :=
  small_reserved_size_fails fs_reserved "/fim" 10 4 ["home"] 10 4 (by decide) (by decide)

/-- Counterexample to C12 as stated: the object constructed with `begin = 10` and
`end = 14` covers, as the claim reads the arguments, a range of 4 bytes, fewer than
`sizeof(Bits) = 8`; yet the size test is made on `m_size = 14`, `get()` returns the record
made of the 8 bytes at offset 10 (all twelve flags and all spare bits set), and
`del({"home"})` writes the record back with the `home` bit cleared, so byte 10 of the
file changes from 255 to 254. -/
theorem small_reserved_size_fails_counterexample :
    (14 - 10 < sizeof_Bits) ∧
    (Permissions.construct "/fim" 10 14).m_size = 14 ∧
    (Permissions.construct "/fim" 10 14).get fs_reserved
      = .ok { home := true, media := true, audio := true, wayland := true, xorg := true,
              dbus_user := true, dbus_system := true, udev := true, usb := true,
              input := true, gpu := true, network := true,
              spare := ⟨2 ^ 52 - 1, by decide⟩ } ∧
    (fs_reserved.node "/fim").map (fun n => n.content)
      = some [255, 255, 255, 255, 255, 255, 255, 255, 255, 255, 255, 255, 255, 255, 255, 255,
          255, 255, 255, 255] ∧
    (((Permissions.construct "/fim" 10 14).del fs_reserved ["home"]).node "/fim").map
        (fun n => n.content)
      = some [255, 255, 255, 255, 255, 255, 255, 255, 255, 255, 254, 255, 255, 255, 255, 255,
          255, 255, 255, 255] := by
  decide

end ns_permissions
end FlatImage
namespace FlatImage

/-! ## The published environment -/

/-- A variable other than the one set keeps its value. -/
theorem ns_env.set_other (env : Env) (name value : String) (replace : ns_env.Replace)
    (k : String) (h : k ≠ name) : ns_env.set env name value replace k = env k := by
  unfold ns_env.set setenv
  by_cases h1 : name = "" ∨ '=' ∈ name.data
  · rw [if_pos h1]
  · rw [if_neg h1]
    by_cases h2 : (replace == ns_env.Replace.Y) = true ∨ env name = none
    · rw [if_pos h2]
      exact if_neg h
    · rw [if_neg h2]

/-- With `Replace::Y` a well-formed name is mapped to the new value. -/
theorem ns_env.set_replace (env : Env) (name value : String) (h1 : name ≠ "")
    (h2 : '=' ∉ name.data) : ns_env.set env name value ns_env.Replace.Y name = some value := by
  unfold ns_env.set
  exact setenv_overwrite env name value h1 h2

/-- With `Replace::N` an environment that defines the name is left as it is. -/
theorem ns_env.set_keep (env : Env) (name value old : String) (h : env name = some old) :
    ns_env.set env name value ns_env.Replace.N = env := by
  unfold ns_env.set setenv
  by_cases h1 : name = "" ∨ '=' ∈ name.data
  · rw [if_pos h1]
  · rw [if_neg h1, if_neg]
    rintro (h2 | h2)
    · exact absurd h2 (by decide)
    · rw [h] at h2; cases h2

/-- The environment and the paths after a directory part that returned. -/
theorem relocate_directories_ok_inv (COMMIT TIMESTAMP : String) (files : FileSys)
    (dirs : DirSys) (env : Env) (path_absolute : Path) (paths : RelocatePaths)
    (hok : (relocate_directories COMMIT TIMESTAMP files dirs env path_absolute).ret
      = .ok paths) :
    paths.path_dir_app_bin
      = path_join (path_join (path_join "/tmp/fim" "app") (COMMIT ++ "_" ++ TIMESTAMP)) "bin" ∧
    paths.path_dir_busybox
      = path_join (path_join (path_join (path_join "/tmp/fim" "app")
          (COMMIT ++ "_" ++ TIMESTAMP)) "bin") "busybox" ∧
    (relocate_directories COMMIT TIMESTAMP files dirs env path_absolute).env =
      ns_env.set (ns_env.set (ns_env.set (ns_env.set (ns_env.set (ns_env.set (ns_env.set
        (ns_env.set env
          "FIM_DIR_GLOBAL" "/tmp/fim" ns_env.Replace.Y)
          "FIM_DIR_APP" (path_join (path_join "/tmp/fim" "app") (COMMIT ++ "_" ++ TIMESTAMP))
            ns_env.Replace.Y)
          "FIM_DIR_APP_BIN" (path_join (path_join (path_join "/tmp/fim" "app")
            (COMMIT ++ "_" ++ TIMESTAMP)) "bin") ns_env.Replace.Y)
          "FIM_DIR_BUSYBOX" (path_join (path_join (path_join (path_join "/tmp/fim" "app")
            (COMMIT ++ "_" ++ TIMESTAMP)) "bin") "busybox") ns_env.Replace.Y)
          "FIM_FILE_BINARY" path_absolute ns_env.Replace.Y)
          "FIM_DIR_INSTANCE" paths.path_dir_instance ns_env.Replace.Y)
          "FIM_DIR_MOUNT" (path_join paths.path_dir_instance "mount") ns_env.Replace.Y)
          "FIM_DIR_MOUNT_EXT" (path_join (path_join paths.path_dir_instance "mount") "ext")
            ns_env.Replace.Y := by
  revert hok
  unfold relocate_directories
  dsimp only
  rcases exists_or_create_directories dirs files "/tmp/fim" "Failed to create directory"
    with ⟨d1, _ | e1⟩
  swap
  · intro hok; cases hok
  dsimp only
  rcases exists_or_create_directories d1 files _ "Failed to create directory"
    with ⟨d2, _ | e2⟩
  swap
  · intro hok; cases hok
  dsimp only
  rcases exists_or_create_directories d2 files _ "Failed to create directory"
    with ⟨d3, _ | e3⟩
  swap
  · intro hok; cases hok
  dsimp only
  rcases exists_or_create_directories d3 files _ "Failed to create directory"
    with ⟨d4, _ | e4⟩
  swap
  · intro hok; cases hok
  dsimp only
  rcases ns_linux.mkdtemp d4 files _ with ⟨d5, e5 | inst⟩
  · intro hok; cases hok
  dsimp only
  rcases exists_or_create_directory d5 files _ "Could not mount directory" with ⟨d6, _ | e6⟩
  swap
  · intro hok; cases hok
  dsimp only
  rcases exists_or_create_directory d6 files _ "Could not mount directory" with ⟨d7, _ | e7⟩
  swap
  · intro hok; cases hok
  dsimp only
  intro hok
  cases hok
  exact ⟨rfl, rfl, rfl⟩

end FlatImage
namespace FlatImage

/-- The path of the application directory written out, for a commit identifier that does
not begin with the separator. -/
theorem path_dir_app_eq (COMMIT TIMESTAMP : String) (h : COMMIT.data.head? ≠ some '/') :
    path_join (path_join "/tmp/fim" "app") (COMMIT ++ "_" ++ TIMESTAMP)
      = "/tmp/fim/app" ++ "/" ++ (COMMIT ++ "_" ++ TIMESTAMP) := by
  have h1 : path_join "/tmp/fim" "app" = "/tmp/fim/app" := by decide
  have h2 : (COMMIT ++ "_" ++ TIMESTAMP).data.head? ≠ some '/' := by
    simp only [String.data_append]
    cases hc : COMMIT.data with
    | nil =>
      simp only [List.nil_append, List.singleton_append, List.head?_cons]
      decide
    | cons c cs =>
      rw [hc] at h
      simpa using h
  rw [h1]
  unfold path_join
  rw [if_neg h2, if_neg (by decide), if_neg (by decide)]

/-- C13: for every initial environment, once the directory part of `relocate` has returned
the environment maps `FIM_DIR_GLOBAL` to `/tmp/fim`, `FIM_DIR_APP` to
`/tmp/fim/app/<COMMIT>_<TIMESTAMP>`, `FIM_DIR_APP_BIN` to `FIM_DIR_APP/bin`,
`FIM_DIR_BUSYBOX` to `FIM_DIR_APP_BIN/busybox`, `FIM_DIR_MOUNT` to `FIM_DIR_INSTANCE/mount`
and `FIM_DIR_MOUNT_EXT` to `FIM_DIR_MOUNT/ext`, the slash being the path join; `ns_env::set`
with `Replace::Y` maps a variable name to the new value whatever the environment held, and
with `Replace::N` leaves an environment that defines the name unchanged. -/
theorem relocate_publishes_paths (COMMIT TIMESTAMP : String) (files : FileSys) (dirs : DirSys)
    (env : Env) (path_absolute : Path) (paths : RelocatePaths)
    (hok : (relocate_directories COMMIT TIMESTAMP files dirs env path_absolute).ret
      = .ok paths) :
    (relocate_directories COMMIT TIMESTAMP files dirs env path_absolute).env "FIM_DIR_GLOBAL"
      = some "/tmp/fim" ∧
    (relocate_directories COMMIT TIMESTAMP files dirs env path_absolute).env "FIM_DIR_APP"
      = some (path_join (path_join "/tmp/fim" "app") (COMMIT ++ "_" ++ TIMESTAMP)) ∧
    (relocate_directories COMMIT TIMESTAMP files dirs env path_absolute).env "FIM_DIR_APP_BIN"
      = some (path_join (path_join (path_join "/tmp/fim" "app") (COMMIT ++ "_" ++ TIMESTAMP))
          "bin") ∧
    (relocate_directories COMMIT TIMESTAMP files dirs env path_absolute).env "FIM_DIR_BUSYBOX"
      = some (path_join (path_join (path_join (path_join "/tmp/fim" "app")
          (COMMIT ++ "_" ++ TIMESTAMP)) "bin") "busybox") ∧
    (relocate_directories COMMIT TIMESTAMP files dirs env path_absolute).env "FIM_DIR_INSTANCE"
      = some paths.path_dir_instance ∧
    (relocate_directories COMMIT TIMESTAMP files dirs env path_absolute).env "FIM_DIR_MOUNT"
      = some (path_join paths.path_dir_instance "mount") ∧
    (relocate_directories COMMIT TIMESTAMP files dirs env path_absolute).env "FIM_DIR_MOUNT_EXT"
      = some (path_join (path_join paths.path_dir_instance "mount") "ext") ∧
    (COMMIT.data.head? ≠ some '/' →
      path_join (path_join "/tmp/fim" "app") (COMMIT ++ "_" ++ TIMESTAMP)
        = "/tmp/fim/app" ++ "/" ++ (COMMIT ++ "_" ++ TIMESTAMP)) ∧
    (∀ (e : Env) (name value : String), name ≠ "" → '=' ∉ name.data →
      ns_env.set e name value ns_env.Replace.Y name = some value) ∧
    (∀ (e : Env) (name value old : String),
      (∀ k, e k ≠ none → k ≠ "" ∧ '=' ∉ k.data) → e name = some old →
      ns_env.set e name value ns_env.Replace.Y name = some value) ∧
    (∀ (e : Env) (name value old : String), e name = some old →
      ns_env.set e name value ns_env.Replace.N = e) := by
  obtain ⟨_, _, henv⟩ := relocate_directories_ok_inv COMMIT TIMESTAMP files dirs env
    path_absolute paths hok
  refine ⟨?_, ?_, ?_, ?_, ?_, ?_, ?_, path_dir_app_eq COMMIT TIMESTAMP,
    fun e name value h1 h2 => ns_env.set_replace e name value h1 h2, ?_,
    fun e name value old h => ns_env.set_keep e name value old h⟩
  · rw [henv, ns_env.set_other _ _ _ _ _ (by decide),
      ns_env.set_other _ _ _ _ _ (by decide),
      ns_env.set_other _ _ _ _ _ (by decide),
      ns_env.set_other _ _ _ _ _ (by decide),
      ns_env.set_other _ _ _ _ _ (by decide),
      ns_env.set_other _ _ _ _ _ (by decide),
      ns_env.set_other _ _ _ _ _ (by decide),
      ns_env.set_replace _ _ _ (by decide) (by decide)]
  · rw [henv, ns_env.set_other _ _ _ _ _ (by decide),
      ns_env.set_other _ _ _ _ _ (by decide),
      ns_env.set_other _ _ _ _ _ (by decide),
      ns_env.set_other _ _ _ _ _ (by decide),
      ns_env.set_other _ _ _ _ _ (by decide),
      ns_env.set_other _ _ _ _ _ (by decide),
      ns_env.set_replace _ _ _ (by decide) (by decide)]
  · rw [henv, ns_env.set_other _ _ _ _ _ (by decide),
      ns_env.set_other _ _ _ _ _ (by decide),
      ns_env.set_other _ _ _ _ _ (by decide),
      ns_env.set_other _ _ _ _ _ (by decide),
      ns_env.set_other _ _ _ _ _ (by decide),
      ns_env.set_replace _ _ _ (by decide) (by decide)]
  · rw [henv, ns_env.set_other _ _ _ _ _ (by decide),
      ns_env.set_other _ _ _ _ _ (by decide),
      ns_env.set_other _ _ _ _ _ (by decide),
      ns_env.set_other _ _ _ _ _ (by decide),
      ns_env.set_replace _ _ _ (by decide) (by decide)]
  · rw [henv, ns_env.set_other _ _ _ _ _ (by decide),
      ns_env.set_other _ _ _ _ _ (by decide),
      ns_env.set_replace _ _ _ (by decide) (by decide)]
  · rw [henv, ns_env.set_other _ _ _ _ _ (by decide),
      ns_env.set_replace _ _ _ (by decide) (by decide)]
  · rw [henv, ns_env.set_replace _ _ _ (by decide) (by decide)]
  · intro e name value old hwf hprior
    have hv := hwf name (by rw [hprior]; exact fun h => Option.noConfusion h)
    exact ns_env.set_replace e name value hv.1 hv.2

/-- Witness for C13: the build with the default `COMMIT` and `TIMESTAMP`, no directory yet,
and an environment that already defines every name as `stale`. -/
theorem relocate_publishes_paths_witness :
    env_stale "FIM_DIR_APP" = some "stale" ∧
    (relocate_directories "unknown" "unknown" fs_empty dirs_empty env_stale "/home/u/app").ret
      = .ok ⟨"/tmp/fim/app/unknown_unknown/instance/AbCdEf", "/tmp/fim/app/unknown_unknown/bin",
          "/tmp/fim/app/unknown_unknown/bin/busybox"⟩ ∧
    (relocate_directories "unknown" "unknown" fs_empty dirs_empty env_stale "/home/u/app").env
        "FIM_DIR_APP" = some (path_join (path_join "/tmp/fim" "app") ("unknown" ++ "_" ++ "unknown")) ∧
    (relocate_directories "unknown" "unknown" fs_empty dirs_empty env_stale "/home/u/app").env
        "FIM_DIR_MOUNT_EXT"
      = some (path_join (path_join "/tmp/fim/app/unknown_unknown/instance/AbCdEf" "mount")
          "ext") ∧
    path_join (path_join "/tmp/fim/app/unknown_unknown/instance/AbCdEf" "mount") "ext"
      = "/tmp/fim/app/unknown_unknown/instance/AbCdEf/mount/ext" :=
  have h := relocate_publishes_paths "unknown" "unknown" fs_empty dirs_empty env_stale
    "/home/u/app" ⟨"/tmp/fim/app/unknown_unknown/instance/AbCdEf",
      "/tmp/fim/app/unknown_unknown/bin", "/tmp/fim/app/unknown_unknown/bin/busybox"⟩
    (by decide)
  ⟨by decide, by decide, h.2.1, h.2.2.2.2.2.2.1, by decide⟩

/-! ## The directory of a variable -/

/-- The function `ns_env::dir` raises when the variable is not set. -/
theorem ns_env.dir_unset (dirs : DirSys) (files : FileSys) (env : Env) (name : String)
    (h : env name = none) : ns_env.dir dirs files env name = (dirs, .error "Variable not set") := by
  unfold ns_env.dir
  rw [h]

/-- The function `ns_env::dir` creates a missing directory that can be created and returns
its canonical path. -/
theorem ns_env.dir_missing (dirs : DirSys) (files : FileSys) (env : Env) (name value : String)
    (h : env name = some value) (hd : dirs.is_dir value = false)
    (hf : files.exists value = false) (hc : dirs.can_create value = true) :
    (ns_env.dir dirs files env name).2 = .ok (dirs.canonical value) ∧
    (ns_env.dir dirs files env name).1.is_dir value = true := by
  unfold ns_env.dir DirSys.create_directory
  rw [h]
  simp [hd, hf, hc]

/-- The function `ns_env::dir` raises on every directory that already exists. -/
theorem ns_env.dir_existing (dirs : DirSys) (files : FileSys) (env : Env) (name value : String)
    (h : env name = some value) (hd : dirs.is_dir value = true) :
    ns_env.dir dirs files env name = (dirs, .error "Could not create directory") := by
  unfold ns_env.dir DirSys.create_directory
  rw [h]
  simp [hd]

/-- C14 (the code at a failing input): the variable `FIM_DIR_DATA` is set to `/d` and `/d`
is an existing directory, yet `ns_env::dir` raises, because `fs::create_directory` returns
`false` for a directory that is already there; on the same variable with `/d` missing and
creatable it returns the canonical path, and on a variable that is not set it raises. -/
theorem dir_raises_on_existing_directory :
    env_stale "FIM_DIR_DATA" = some "/d" ∧ dirs_with_d.is_dir "/d" = true ∧
    (ns_env.dir dirs_with_d fs_empty env_stale "FIM_DIR_DATA").2
      = .error "Could not create directory" ∧
    (ns_env.dir dirs_empty fs_empty env_stale "FIM_DIR_DATA").2 = .ok (dirs_empty.canonical "/d") ∧
    (ns_env.dir dirs_empty fs_empty env_stale "HOME").2 = .error "Variable not set" := by
  decide

end FlatImage

namespace FlatImage
namespace ns_permissions

/-! ## The spare bits of the storage unit -/

/-- The method `Bits::set` leaves the 52 spare bits as they are. -/
theorem Bits.set_spare (b : Bits) (name : String) (v : Bool) :
    (b.set name v).spare = b.spare := by
  unfold Bits.set
  generalize transform_tolower name = t
  dsimp only
  by_cases h0 : t = "home"
  · rw [if_pos h0]
  rw [if_neg h0]
  by_cases h1 : t = "media"
  · rw [if_pos h1]
  rw [if_neg h1]
  by_cases h2 : t = "audio"
  · rw [if_pos h2]
  rw [if_neg h2]
  by_cases h3 : t = "wayland"
  · rw [if_pos h3]
  rw [if_neg h3]
  by_cases h4 : t = "xorg"
  · rw [if_pos h4]
  rw [if_neg h4]
  by_cases h5 : t = "dbus_user"
  · rw [if_pos h5]
  rw [if_neg h5]
  by_cases h6 : t = "dbus_system"
  · rw [if_pos h6]
  rw [if_neg h6]
  by_cases h7 : t = "udev"
  · rw [if_pos h7]
  rw [if_neg h7]
  by_cases h8 : t = "usb"
  · rw [if_pos h8]
  rw [if_neg h8]
  by_cases h9 : t = "input"
  · rw [if_pos h9]
  rw [if_neg h9]
  by_cases h10 : t = "gpu"
  · rw [if_pos h10]
  rw [if_neg h10]
  by_cases h11 : t = "network"
  · rw [if_pos h11]
  rw [if_neg h11]

/-- Setting a list of names leaves the spare bits as they are. -/
theorem Bits.foldl_set_spare (names : List String) (b : Bits) (v : Bool) :
    (names.foldl (fun (bits : Bits) e => bits.set e v) b).spare = b.spare := by
  induction names generalizing b with
  | nil => rfl
  | cons e rest ih =>
    rw [List.foldl_cons, ih, Bits.set_spare]

/-- The bytes of a region in which every bit is set come back unchanged from `add` with
no name, and only bit 0 changes under `del` of `home`: the spare bits read from the file
are the ones written back. -/
theorem Permissions.spare_bits_carried :
    (((Permissions.construct "/fim" 4 12).add fs_reserved []).node "/fim").map
        (fun n => n.content)
      = some demo_reserved ∧
    (((Permissions.construct "/fim" 4 12).del fs_reserved ["home"]).node "/fim").map
        (fun n => n.content)
      = some [255, 255, 255, 255, 254, 255, 255, 255, 255, 255, 255, 255, 255, 255, 255, 255,
          255, 255, 255, 255] := by
  decide

end ns_permissions
end FlatImage
